import Mathlib

/-!
# sql2gorm: schema extraction and GORM model synthesis

A shallow embedding of `parser/parser.go` and `generator/generator.go`.

Go strings are byte sequences, so a string is a list of bytes (`Nat`, each
below 256 in a well-formed string); lengths and indices count bytes, as in
Go.  Functions of the Go standard library are modelled by what they are
documented to compute; third-party functions whose behaviour is driven by
large tables (`strings.Title`, `inflection.Singular`, the Unicode case
tables, the SQL grammar, `go/format`) are parameters.
-/

set_option autoImplicit false
set_option maxRecDepth 100000

/-- A Go `string`: its bytes. -/
abbrev GoString := List Nat

/-- The bytes (UTF-8) of a string literal of the source. -/
def str (s : String) : GoString :=
  s.toList.flatMap (fun c => (String.utf8EncodeChar c).map UInt8.toNat)

/-- The outcome of a Go call: it returns its results, or it panics at run time
(an index or a slice bound out of range). -/
inductive Outcome (α : Type) where
  | returned (results : α)
  | panicked
  deriving DecidableEq, Repr

/-- Go `s[lo:]` on a string or a slice: panics unless `0 ≤ lo ≤ len(s)`. -/
def sliceLow {α : Type} (s : List α) (lo : Int) : Outcome (List α) :=
  if 0 ≤ lo ∧ lo ≤ (s.length : Int) then Outcome.returned (s.drop lo.toNat)
  else Outcome.panicked

/-- Go `s[lo:hi]` on a string or a slice: panics unless `0 ≤ lo ≤ hi ≤ len(s)`. -/
def sliceLowHigh {α : Type} (s : List α) (lo hi : Int) : Outcome (List α) :=
  if 0 ≤ lo ∧ lo ≤ hi ∧ hi ≤ (s.length : Int) then
    Outcome.returned ((s.take hi.toNat).drop lo.toNat)
  else Outcome.panicked

/-- Go `s[i]` on a slice: panics unless `0 ≤ i < len(s)`. -/
def elemAt {α : Type} (s : List α) (i : Int) : Outcome α :=
  if 0 ≤ i then
    match s.get? i.toNat with
    | some a => Outcome.returned a
    | none => Outcome.panicked
  else Outcome.panicked

namespace utf8

/-- Go `utf8.RuneError`. -/
def RuneError : Nat := 0xFFFD

/-- Go `utf8.RuneSelf`. -/
def RuneSelf : Nat := 0x80

/-- Go `utf8.DecodeRuneInString`: the first rune of `s` and its width in
bytes; an invalid or truncated encoding gives `(RuneError, 1)`. -/
def DecodeRuneInString : GoString → Nat × Nat
  | [] => (RuneError, 0)
  | s0 :: rest =>
    if s0 < RuneSelf then (s0, 1)
    else if s0 < 0xC2 ∨ 0xF4 < s0 then (RuneError, 1)
    else
      let sz := if s0 < 0xE0 then 2 else if s0 < 0xF0 then 3 else 4
      let lo := if s0 = 0xE0 then 0xA0 else if s0 = 0xF0 then 0x90 else 0x80
      let hi := if s0 = 0xED then 0x9F else if s0 = 0xF4 then 0x8F else 0xBF
      if rest.length + 1 < sz then (RuneError, 1)
      else
        match rest with
        | [] => (RuneError, 1)
        | s1 :: rest1 =>
          if s1 < lo ∨ hi < s1 then (RuneError, 1)
          else if sz ≤ 2 then ((s0 % 32) * 64 + s1 % 64, 2)
          else
            match rest1 with
            | [] => (RuneError, 1)
            | s2 :: rest2 =>
              if s2 < 0x80 ∨ 0xBF < s2 then (RuneError, 1)
              else if sz ≤ 3 then ((s0 % 16) * 4096 + (s1 % 64) * 64 + s2 % 64, 3)
              else
                match rest2 with
                | [] => (RuneError, 1)
                | s3 :: _ =>
                  if s3 < 0x80 ∨ 0xBF < s3 then (RuneError, 1)
                  else ((s0 % 8) * 262144 + (s1 % 64) * 4096 + (s2 % 64) * 64 + s3 % 64, 4)

/-- Go `utf8.AppendRune(nil, r)`: the UTF-8 encoding of `r`; a surrogate or a
value above `MaxRune` is encoded as `RuneError`. -/
def AppendRune (r : Nat) : GoString :=
  if r ≤ 0x7F then [r]
  else if r ≤ 0x7FF then [0xC0 + r / 64, 0x80 + r % 64]
  else if 0x10FFFF < r ∨ (0xD800 ≤ r ∧ r ≤ 0xDFFF) then [0xEF, 0xBF, 0xBD]
  else if r ≤ 0xFFFF then [0xE0 + r / 4096, 0x80 + r / 64 % 64, 0x80 + r % 64]
  else [0xF0 + r / 262144, 0x80 + r / 4096 % 64, 0x80 + r / 64 % 64, 0x80 + r % 64]

end utf8

namespace unicode

/-- Go `unicode.ToUpper`: ASCII letters directly, any other rune through the
case table, `upperCase r` standing for `unicode.To(unicode.UpperCase, r)`. -/
def ToUpper (upperCase : Nat → Nat) (r : Nat) : Nat :=
  if r ≤ 0x7F then
    if 'a'.toNat ≤ r ∧ r ≤ 'z'.toNat then r - ('a'.toNat - 'A'.toNat) else r
  else upperCase r

/-- Go `unicode.ToLower`: ASCII letters directly, any other rune through the
case table, `lowerCase r` standing for `unicode.To(unicode.LowerCase, r)`. -/
def ToLower (lowerCase : Nat → Nat) (r : Nat) : Nat :=
  if r ≤ 0x7F then
    if 'A'.toNat ≤ r ∧ r ≤ 'Z'.toNat then r + ('a'.toNat - 'A'.toNat) else r
  else lowerCase r

end unicode

namespace strings

/-- The loop of Go `strings.Map`: decode a rune, write the encoding of its
image, go on behind it.  `fuel` bounds the number of runes. -/
def mapRunes (mapping : Nat → Nat) : Nat → GoString → GoString
  | 0, _ => []
  | _, [] => []
  | fuel + 1, c :: cs =>
    let decoded := utf8.DecodeRuneInString (c :: cs)
    utf8.AppendRune (mapping decoded.1) ++ mapRunes mapping fuel ((c :: cs).drop decoded.2)

/-- Go `strings.Map(mapping, s)` for a mapping without negative values: every
rune is replaced by its image, every invalid byte by the image of
`RuneError`. -/
def Map (mapping : Nat → Nat) (s : GoString) : GoString :=
  mapRunes mapping s.length s

/-- The byte-wise step of `strings.ToUpper` on an ASCII string:
`c -= 'a' - 'A'` for a lower-case letter. -/
def upperByte (c : Nat) : Nat :=
  if 'a'.toNat ≤ c ∧ c ≤ 'z'.toNat then c - ('a'.toNat - 'A'.toNat) else c

/-- The byte-wise step of `strings.ToLower` on an ASCII string:
`c += 'a' - 'A'` for an upper-case letter. -/
def lowerByte (c : Nat) : Nat :=
  if 'A'.toNat ≤ c ∧ c ≤ 'Z'.toNat then c + ('a'.toNat - 'A'.toNat) else c

/-- Whether every rune that the loop of `strings.Map` meets in `s` satisfies
`p`. -/
def runesAll (p : Nat → Bool) : Nat → GoString → Bool
  | 0, _ => true
  | _, [] => true
  | fuel + 1, c :: cs =>
    let decoded := utf8.DecodeRuneInString (c :: cs)
    p decoded.1 && runesAll p fuel ((c :: cs).drop decoded.2)

/-- Go `strings.ToUpper`: an all-ASCII string is upper-cased byte by byte, any
other string goes through `Map(unicode.ToUpper, s)`; `upperCase` is the
Unicode case table. -/
def ToUpper (upperCase : Nat → Nat) (s : GoString) : GoString :=
  if s.all (fun c => decide (c < utf8.RuneSelf)) then
    s.map upperByte
  else
    Map (unicode.ToUpper upperCase) s

/-- Go `strings.ToLower`: an all-ASCII string is lower-cased byte by byte, any
other string goes through `Map(unicode.ToLower, s)`; `lowerCase` is the
Unicode case table. -/
def ToLower (lowerCase : Nat → Nat) (s : GoString) : GoString :=
  if s.all (fun c => decide (c < utf8.RuneSelf)) then
    s.map lowerByte
  else
    Map (unicode.ToLower lowerCase) s

/-- The search of `strings.Index` from byte offset `i` of the original
string. -/
def indexFrom (substr : GoString) : GoString → Nat → Int
  | [], i => if substr = [] then (i : Int) else -1
  | c :: cs, i => if substr <+: c :: cs then (i : Int) else indexFrom substr cs (i + 1)

/-- Go `strings.Index(s, substr)`: the byte offset of the first occurrence of
`substr` in `s`, or `-1`. -/
def Index (s substr : GoString) : Int := indexFrom substr s 0

/-- Go `strings.Contains(s, substr)`, which is `Index(s, substr) >= 0`. -/
def Contains (s substr : GoString) : Bool := decide (0 ≤ Index s substr)

/-- The search of `strings.LastIndex` from byte offset `i` of the original
string. -/
def lastIndexFrom (substr : GoString) : GoString → Nat → Int
  | [], i => if substr = [] then (i : Int) else -1
  | c :: cs, i =>
    let later := lastIndexFrom substr cs (i + 1)
    if later ≠ -1 then later
    else if substr <+: c :: cs then (i : Int) else -1

/-- Go `strings.LastIndex(s, substr)`: the byte offset of the last occurrence
of `substr` in `s`, or `-1`. -/
def LastIndex (s substr : GoString) : Int := lastIndexFrom substr s 0

/-- Go `strings.Join(elems, sep)`. -/
def Join : List GoString → GoString → GoString
  | [], _ => []
  | [a], _ => a
  | a :: b :: rest, sep => a ++ sep ++ Join (b :: rest) sep

/-- Go `strings.Split(s, sep)` for a separator of one byte: the pieces of `s`
between the occurrences of `sep`; always at least one piece. -/
def Split : GoString → Nat → List GoString
  | [], _ => [[]]
  | c :: cs, sep =>
    if c = sep then [] :: Split cs sep
    else
      match Split cs sep with
      | [] => [[c]]
      | piece :: rest => (c :: piece) :: rest

end strings

namespace sqlparser

/-- Go `sqlparser.ValType`, the kind of an SQL value. -/
inductive ValType where
  | StrVal
  | IntVal
  | FloatVal
  | HexNum
  | HexVal
  | ValArg
  | BitVal
  deriving DecidableEq, Repr

/-- Go `sqlparser.SQLVal`; `Type_` is the field `Type`. -/
structure SQLVal where
  Type_ : ValType
  Val : GoString
  deriving DecidableEq, Repr

/-- Go `sqlparser.ColumnKeyOption`, the key attribute written on a column. -/
inductive ColumnKeyOption where
  | colKeyNone
  | colKeyPrimary
  | colKeySpatialKey
  | colKeyUnique
  | colKeyUniqueKey
  | colKey
  deriving DecidableEq, Repr

/-- Go `sqlparser.ColumnType`: the fields the extractor reads, and the column
key option, which it does not read; `Type_` is the field `Type`. -/
structure ColumnType where
  Type_ : GoString
  NotNull : Bool
  Autoincrement : Bool
  Default : Option SQLVal
  Comment : Option SQLVal
  KeyOpt : ColumnKeyOption
  deriving DecidableEq, Repr

/-- Go `sqlparser.ColumnDefinition`; `Name` is `col.Name.String()` and `Type_`
is the field `Type`. -/
structure ColumnDefinition where
  Name : GoString
  Type_ : ColumnType
  deriving DecidableEq, Repr

/-- Go `sqlparser.IndexInfo`. -/
structure IndexInfo where
  Type_ : GoString
  Name : GoString
  Primary : Bool
  Spatial : Bool
  Unique : Bool
  deriving DecidableEq, Repr

/-- Go `sqlparser.IndexColumn`; `Column` is `col.Column.String()`. -/
structure IndexColumn where
  Column : GoString
  Length : Option SQLVal
  deriving DecidableEq, Repr

/-- Go `sqlparser.IndexDefinition`. -/
structure IndexDefinition where
  Info : IndexInfo
  Columns : List IndexColumn
  deriving DecidableEq, Repr

/-- Go `sqlparser.TableSpec`. -/
structure TableSpec where
  Columns : List ColumnDefinition
  Indexes : List IndexDefinition
  Options : GoString
  deriving DecidableEq, Repr

/-- Go `sqlparser.DDL`: the fields the extractor reads; `NewName` is
`ddl.NewName.Name.String()`, and `TableSpec` is `none` for the nil pointer. -/
structure DDL where
  Action : GoString
  NewName : GoString
  TableSpec : Option TableSpec
  deriving DecidableEq, Repr

/-- Go `sqlparser.Statement` as far as the type assertion `stmt.(*sqlparser.DDL)`
tells statements apart: a `*DDL`, or anything else (a select, an insert, the
nil statement of an empty input, ...). -/
inductive Statement where
  | ddl (d : DDL)
  | other
  deriving DecidableEq, Repr

end sqlparser

namespace parser

/-- Go `parser.FieldInfo`; `Type_` is the field `Type`. -/
structure FieldInfo where
  Name : GoString
  Type_ : GoString
  IsNull : Bool
  DefaultValue : GoString
  Comment : GoString
  IsPrimary : Bool
  IsAutoInc : Bool
  deriving DecidableEq, Repr

/-- Go `parser.TableInfo`. -/
structure TableInfo where
  Name : GoString
  Comment : GoString
  Fields : List FieldInfo
  PrimaryKeys : List GoString
  deriving DecidableEq, Repr

open sqlparser

/-- Go `parseColumn`; `lowerCase` is the Unicode case table behind
`strings.ToLower`. -/
def parseColumn (lowerCase : Nat → Nat) (col : ColumnDefinition) : FieldInfo :=
  let field : FieldInfo :=
    { Name := col.Name
      Type_ := strings.ToLower lowerCase col.Type_.Type_
      IsNull := true
      DefaultValue := []
      Comment := []
      IsPrimary := false
      IsAutoInc := false }
  let field := if col.Type_.NotNull then { field with IsNull := false } else field
  let field := if col.Type_.Autoincrement then { field with IsAutoInc := true } else field
  let field :=
    match col.Type_.Default with
    | some default =>
      if default.Type_ = ValType.StrVal then { field with DefaultValue := default.Val }
      else if default.Type_ = ValType.IntVal then { field with DefaultValue := default.Val }
      else if default.Type_ = ValType.FloatVal then { field with DefaultValue := default.Val }
      else field
    | none => field
  let field :=
    match col.Type_.Comment with
    | some comment => { field with Comment := comment.Val }
    | none => field
  field

/-- The byte of the single quote. -/
def quote : Nat := 39

/-- Lines 139-145 of `extractTableComment`, run on `commentPart`: the text
between its first and its last single quote, or the empty string of the final
`return ""`.  The slice expression can panic. -/
def quotedText (commentPart : GoString) : Outcome GoString :=
  if strings.Contains commentPart [quote] then
    let start := strings.Index commentPart [quote]
    let end_ := strings.LastIndex commentPart [quote]
    if start ≠ -1 ∧ end_ ≠ -1 ∧ start < end_ then
      sliceLowHigh commentPart (start + 1) end_
    else Outcome.returned []
  else Outcome.returned []

/-- Go `extractTableComment`; `upperCase` is the Unicode case table behind
`strings.ToUpper`.  The slice expression `options[commentIndex:]` can
panic. -/
def extractTableComment (upperCase : Nat → Nat) (options : GoString) :
    Outcome GoString :=
  if strings.Contains (strings.ToUpper upperCase options) (str "COMMENT") then
    let commentIndex := strings.Index (strings.ToUpper upperCase options) (str "COMMENT")
    if commentIndex ≠ -1 then
      match sliceLow options commentIndex with
      | Outcome.panicked => Outcome.panicked
      | Outcome.returned commentPart => quotedText commentPart
    else Outcome.returned []
  else Outcome.returned []

/-- The inner loop of lines 82-87 of `Parse`: the field is marked primary at
the first primary-key name equal to its own name. -/
def markPrimary (field : FieldInfo) : List GoString → FieldInfo
  | [] => field
  | pk :: rest =>
    if field.Name = pk then { field with IsPrimary := true } else markPrimary field rest

/-- Lines 65-88 of `Parse`, run when the table specification is not nil: the
column loop, the primary-key loop and the loop that marks the fields. -/
def parseTableSpec (lowerCase : Nat → Nat) (tableInfo : TableInfo) (spec : TableSpec) :
    TableInfo :=
  let tableInfo :=
    spec.Columns.foldl
      (fun tableInfo col =>
        { tableInfo with Fields := tableInfo.Fields ++ [parseColumn lowerCase col] })
      tableInfo
  let tableInfo :=
    spec.Indexes.foldl
      (fun tableInfo idx =>
        if idx.Info.Primary then
          idx.Columns.foldl
            (fun tableInfo col =>
              { tableInfo with PrimaryKeys := tableInfo.PrimaryKeys ++ [col.Column] })
            tableInfo
        else tableInfo)
      tableInfo
  { tableInfo with
    Fields := tableInfo.Fields.map (fun field => markPrimary field tableInfo.PrimaryKeys) }

/-- The results of Go `Parse`: the `*TableInfo` (`none` for nil) and the
`error` (`none` for nil, otherwise its message). -/
abbrev ParseResults := Option TableInfo × Option GoString

/-- Go `Parse`.  `sqlparserParse` is `sqlparser.Parse`, giving the statement or
the message of its error; the case tables are those of `strings.ToUpper` and
`strings.ToLower`. -/
def Parse (sqlparserParse : GoString → Except GoString Statement)
    (upperCase lowerCase : Nat → Nat) (sql : GoString) : Outcome ParseResults :=
  match sqlparserParse sql with
  | Except.error err => Outcome.returned (none, some (str "SQL解析失败: " ++ err))
  | Except.ok stmt =>
    match stmt with
    | Statement.other => Outcome.returned (none, some (str "不是DDL语句"))
    | Statement.ddl ddl =>
      if ddl.Action ≠ str "create" then
        Outcome.returned (none, some (str "不是CREATE语句"))
      else
        let tableInfo : TableInfo :=
          { Name := ddl.NewName, Comment := [], Fields := [], PrimaryKeys := [] }
        match ddl.TableSpec with
        | none => Outcome.returned (some tableInfo, none)
        | some spec =>
          match extractTableComment upperCase spec.Options with
          | Outcome.panicked => Outcome.panicked
          | Outcome.returned comment =>
            let tableInfo := { tableInfo with Comment := comment }
            Outcome.returned (some (parseTableSpec lowerCase tableInfo spec), none)

end parser

namespace config

/-- Go `config.Config`. -/
structure Config where
  SQLFile : GoString
  OutputFile : GoString
  TableName : GoString
  PackageName : GoString
  DSN : GoString
  deriving DecidableEq, Repr

end config

namespace generator

open parser

/-- Go `GORMGenerator`; `config` is the configuration behind the pointer. -/
structure GORMGenerator where
  config : config.Config
  deriving DecidableEq, Repr

/-- Go `generateStructName`; `Title` is `strings.Title` and `Singular` is
`inflection.Singular`.  The slice expression `parts[1:]` can panic. -/
def generateStructName (Title Singular : GoString → GoString) (tableName : GoString) :
    Outcome GoString :=
  let parts := strings.Split tableName '_'.toNat
  match sliceLow parts 1 with
  | Outcome.panicked => Outcome.panicked
  | Outcome.returned tail =>
    let nameParts : List GoString :=
      tail.foldl
        (fun nameParts part => if part ≠ [] then nameParts ++ [Title part] else nameParts) []
    if nameParts.length = 0 then
      Outcome.returned (Title tableName)
    else
      let baseName := strings.Join nameParts []
      Outcome.returned (Singular baseName ++ str "Model")

/-- Go `generateInstanceName`. -/
def generateInstanceName (structName : GoString) : GoString :=
  structName ++ str "Ins"

/-- Go `generateGoFieldName`; `Title` is `strings.Title`. -/
def generateGoFieldName (Title : GoString → GoString) (dbFieldName : GoString) : GoString :=
  let parts := strings.Split dbFieldName '_'.toNat
  let nameParts : List GoString :=
    parts.foldl
      (fun nameParts part => if part ≠ [] then nameParts ++ [Title part] else nameParts) []
  strings.Join nameParts []

/-- Go `mapMySQLTypeToGoType`.  The index expression
`strings.Split(mysqlType, "(")[0]` can panic. -/
def mapMySQLTypeToGoType (mysqlType : GoString) : Outcome GoString :=
  match elemAt (strings.Split mysqlType '('.toNat) 0 with
  | Outcome.panicked => Outcome.panicked
  | Outcome.returned baseType =>
    if baseType = str "int" ∨ baseType = str "tinyint" ∨ baseType = str "smallint" ∨
        baseType = str "mediumint" ∨ baseType = str "bigint" then
      Outcome.returned (str "int64")
    else if baseType = str "float" ∨ baseType = str "double" ∨ baseType = str "decimal" then
      Outcome.returned (str "float64")
    else if baseType = str "varchar" ∨ baseType = str "char" ∨ baseType = str "text" ∨
        baseType = str "longtext" ∨ baseType = str "mediumtext" ∨
        baseType = str "tinytext" then
      Outcome.returned (str "string")
    else if baseType = str "date" ∨ baseType = str "datetime" ∨
        baseType = str "timestamp" ∨ baseType = str "time" then
      Outcome.returned (str "string")
    else if baseType = str "blob" ∨ baseType = str "longblob" ∨
        baseType = str "mediumblob" ∨ baseType = str "tinyblob" then
      Outcome.returned (str "[]byte")
    else if baseType = str "json" then
      Outcome.returned (str "string")
    else
      Outcome.returned (str "string")

/-- Go `generateGORMTags`; `fmt.Sprintf` with `%s` verbs is concatenation. -/
def generateGORMTags (field : FieldInfo) : GoString :=
  let tags : List GoString := []
  let tags := tags ++ [str "column:" ++ field.Name]
  let tags := if field.IsPrimary then tags ++ [str "primaryKey"] else tags
  let tags := if field.IsAutoInc then tags ++ [str "autoIncrement"] else tags
  let tags :=
    if field.DefaultValue ≠ [] then
      let defaultValue := field.DefaultValue
      if defaultValue = str "CURRENT_TIMESTAMP" then
        tags ++ [str "default:CURRENT_TIMESTAMP"]
      else if defaultValue = str "NULL" then
        tags ++ [str "default:null"]
      else
        tags ++ [str "default:" ++ defaultValue]
    else tags
  let tags := if !field.IsNull then tags ++ [str "not null"] else tags
  str "gorm:\"" ++ strings.Join tags (str ";") ++ str "\""

/-- Lines 183-214 of `generateGORMTags`: the slice `tags` as it stands before
line 216 joins it. -/
def gormTagList (field : FieldInfo) : List GoString :=
  let tags : List GoString := []
  let tags := tags ++ [str "column:" ++ field.Name]
  let tags := if field.IsPrimary then tags ++ [str "primaryKey"] else tags
  let tags := if field.IsAutoInc then tags ++ [str "autoIncrement"] else tags
  let tags :=
    if field.DefaultValue ≠ [] then
      let defaultValue := field.DefaultValue
      if defaultValue = str "CURRENT_TIMESTAMP" then
        tags ++ [str "default:CURRENT_TIMESTAMP"]
      else if defaultValue = str "NULL" then
        tags ++ [str "default:null"]
      else
        tags ++ [str "default:" ++ defaultValue]
    else tags
  let tags := if !field.IsNull then tags ++ [str "not null"] else tags
  tags

/-- The results of a Go function of type `(string, error)`: the string and
the error (`none` for nil, otherwise its message). -/
abbrev StringResults := GoString × Option GoString

/-- Go `generateField`; `Title` is `strings.Title`, and `fmt.Sprintf` with `%s`
verbs is concatenation. -/
def generateField (Title : GoString → GoString) (field : FieldInfo) :
    Outcome StringResults :=
  let goFieldName := generateGoFieldName Title field.Name
  match mapMySQLTypeToGoType field.Type_ with
  | Outcome.panicked => Outcome.panicked
  | Outcome.returned goType =>
    let jsonTag := str "json:\"" ++ field.Name ++ str "\""
    let gormTags := generateGORMTags field
    let comment := if field.Comment ≠ [] then str " // " ++ field.Comment else []
    let fieldCode :=
      str "\t" ++ goFieldName ++ str "\t" ++ goType ++ str " \x60" ++ jsonTag ++ str " "
        ++ gormTags ++ str "\x60" ++ comment
    Outcome.returned (fieldCode, none)

/-- The loop of Go `generateFields` over the fields still to come, with the
lines collected so far. -/
def generateFieldsLoop (Title : GoString → GoString) :
    List FieldInfo → List GoString → Outcome StringResults
  | [], fieldLines => Outcome.returned (strings.Join fieldLines (str "\n\t"), none)
  | field :: rest, fieldLines =>
    match generateField Title field with
    | Outcome.panicked => Outcome.panicked
    | Outcome.returned (fieldLine, err) =>
      match err with
      | some e => Outcome.returned ([], some e)
      | none => generateFieldsLoop Title rest (fieldLines ++ [fieldLine])

/-- Go `generateFields`. -/
def generateFields (Title : GoString → GoString) (fields : List FieldInfo) :
    Outcome StringResults :=
  generateFieldsLoop Title fields []

/-- Go `generateTableNameMethod`. -/
def generateTableNameMethod (Title Singular : GoString → GoString) (tableName : GoString) :
    Outcome GoString :=
  match generateStructName Title Singular tableName with
  | Outcome.panicked => Outcome.panicked
  | Outcome.returned structName =>
    Outcome.returned
      (str "// TableName 表名称\nfunc (own *" ++ structName
        ++ str ") TableName() string \x7b\n\treturn \"" ++ tableName ++ str "\"\n\x7d")

/-- Go `formatGoCode`; `formatSource` is `format.Source`, giving the formatted
text or the message of its error. -/
def formatGoCode (formatSource : GoString → Except GoString GoString) (code : GoString) :
    StringResults :=
  match formatSource code with
  | Except.error err => ([], some err)
  | Except.ok formatted => (formatted, none)

/-- Lines 27-60 of `Generate`: `Except.ok code` with the assembled text
`code`, or `Except.error err` when `generateFields` returned the error `err`
and line 36 returns. -/
def assembleCode (Title Singular : GoString → GoString) (g : GORMGenerator)
    (tableInfo : TableInfo) : Outcome (Except GoString GoString) :=
  match generateStructName Title Singular tableInfo.Name with
  | Outcome.panicked => Outcome.panicked
  | Outcome.returned structName =>
    let instanceName := generateInstanceName structName
    match generateFields Title tableInfo.Fields with
    | Outcome.panicked => Outcome.panicked
    | Outcome.returned (fields, err) =>
      match err with
      | some e => Outcome.returned (Except.error e)
      | none =>
        match generateTableNameMethod Title Singular tableInfo.Name with
        | Outcome.panicked => Outcome.panicked
        | Outcome.returned tableNameMethod =>
          Outcome.returned
            (Except.ok
              (str "package " ++ g.config.PackageName ++ str "\n\nvar " ++ instanceName
                ++ str " = new(" ++ structName ++ str ")\n\n// " ++ structName ++ str " "
                ++ tableInfo.Comment ++ str "\ntype " ++ structName ++ str " struct \x7b\n"
                ++ fields ++ str "\n\x7d\n\n" ++ tableNameMethod))

/-- Go `Generate`; `formatSource` is `format.Source`, `Title` is
`strings.Title` and `Singular` is `inflection.Singular`. -/
def Generate (formatSource : GoString → Except GoString GoString)
    (Title Singular : GoString → GoString) (g : GORMGenerator) (tableInfo : TableInfo) :
    Outcome StringResults :=
  match assembleCode Title Singular g tableInfo with
  | Outcome.panicked => Outcome.panicked
  | Outcome.returned (Except.error err) => Outcome.returned ([], some err)
  | Outcome.returned (Except.ok code) =>
    match formatGoCode formatSource code with
    | (_, some err) => Outcome.returned ([], some (str "代码格式化失败: " ++ err))
    | (formattedCode, none) => Outcome.returned (formattedCode, none)

end generator


/-! ## Example statements -/

namespace examples

open sqlparser parser

/-- A stand-in for `sqlparser.Parse` that knows one input: the statement `stmt`
for the text `sql`, a syntax error for every other text. -/
def parserOf (sql : GoString) (stmt : Statement) : GoString → Except GoString Statement :=
  fun input => if input = sql then Except.ok stmt else Except.error (str "syntax error")

/-- The one entry of the Unicode upper-case table for U+0250 (turned a), whose
upper case U+2C6F takes three bytes instead of two; other runes are left
alone. -/
def turnedA (r : Nat) : Nat := if r = 0x250 then 0x2C6F else r

/-- A column definition with a type and no attribute. -/
def plainColumn (name type : GoString) : ColumnDefinition :=
  { Name := name
    Type_ :=
      { Type_ := type, NotNull := false, Autoincrement := false, Default := none,
        Comment := none, KeyOpt := ColumnKeyOption.colKeyNone } }

/-- A table of orders with a table-level primary key. -/
def orderSQL : GoString :=
  str ("create table ny_order (id bigint not null auto_increment, " ++
    "order_no varchar(32) not null, created_at datetime default current_timestamp, " ++
    "primary key (id)) comment='orders'")

/-- The syntax tree of `orderSQL`. -/
def orderStatement : Statement :=
  Statement.ddl
    { Action := str "create"
      NewName := str "ny_order"
      TableSpec := some
        { Columns :=
            [ { Name := str "id"
                Type_ :=
                  { Type_ := str "bigint", NotNull := true, Autoincrement := true,
                    Default := none, Comment := none,
                    KeyOpt := ColumnKeyOption.colKeyNone } },
              { Name := str "order_no"
                Type_ :=
                  { Type_ := str "varchar", NotNull := true, Autoincrement := false,
                    Default := none, Comment := none,
                    KeyOpt := ColumnKeyOption.colKeyNone } },
              { Name := str "created_at"
                Type_ :=
                  { Type_ := str "datetime", NotNull := false, Autoincrement := false,
                    Default := some { Type_ := ValType.ValArg, Val := str "current_timestamp" },
                    Comment := none, KeyOpt := ColumnKeyOption.colKeyNone } } ]
          Indexes :=
            [ { Info :=
                  { Type_ := str "primary key", Name := str "PRIMARY", Primary := true,
                    Spatial := false, Unique := true }
                Columns := [ { Column := str "id", Length := none } ] } ]
          Options := str " comment='orders'" } }

/-- The `TableInfo` that `Parse` builds from `orderStatement`. -/
def orderTableInfo : TableInfo :=
  { Name := str "ny_order"
    Comment := str "orders"
    Fields :=
      [ { Name := str "id", Type_ := str "bigint", IsNull := false, DefaultValue := [],
          Comment := [], IsPrimary := true, IsAutoInc := true },
        { Name := str "order_no", Type_ := str "varchar", IsNull := false, DefaultValue := [],
          Comment := [], IsPrimary := false, IsAutoInc := false },
        { Name := str "created_at", Type_ := str "datetime", IsNull := true,
          DefaultValue := [], Comment := [], IsPrimary := false, IsAutoInc := false } ]
    PrimaryKeys := [str "id"] }

/-- A column with the integer literal `0` as default. -/
def statusColumn : ColumnDefinition :=
  { Name := str "status"
    Type_ :=
      { Type_ := str "tinyint", NotNull := true, Autoincrement := false,
        Default := some { Type_ := ValType.IntVal, Val := str "0" },
        Comment := none, KeyOpt := ColumnKeyOption.colKeyNone } }

/-- A column with the keyword `current_timestamp` as default, which the SQL
parser delivers as a value of kind `ValArg`. -/
def createdAtColumn : ColumnDefinition :=
  { Name := str "created_at"
    Type_ :=
      { Type_ := str "datetime", NotNull := false, Autoincrement := false,
        Default := some { Type_ := ValType.ValArg, Val := str "current_timestamp" },
        Comment := none, KeyOpt := ColumnKeyOption.colKeyNone } }

/-- A stand-in for `strings.Title` on a word of ASCII letters: the first byte
is upper-cased. -/
def titleWord : GoString → GoString
  | [] => []
  | c :: cs => strings.upperByte c :: cs

/-- A stand-in for `inflection.Singular` on a regular English plural: a final
`s` is dropped. -/
def dropFinalS (s : GoString) : GoString :=
  if s.getLast? = some 's'.toNat then s.dropLast else s

/-- A text that is no SQL statement: the keyword is misspelt. -/
def brokenSQL : GoString := str "selec 1"

/-- A view definition. -/
def viewSQL : GoString := str "create view order_view as select id from ny_order"

/-- The syntax tree of `viewSQL`: action `create`, no table specification. -/
def viewStatement : Statement :=
  Statement.ddl { Action := str "create", NewName := str "order_view", TableSpec := none }

/-- The `TableInfo` that `Parse` builds from `viewStatement`. -/
def viewTableInfo : TableInfo :=
  { Name := str "order_view", Comment := [], Fields := [], PrimaryKeys := [] }

/-- Table options in which a quoted value of twelve letters U+0250 stands
before the comment. -/
def wideningOptions : GoString := str " engine 'ɐɐɐɐɐɐɐɐɐɐɐɐ' comment 'x'"

/-- A table definition with the options `wideningOptions`. -/
def wideningSQL : GoString := str "create table t (id int) engine 'ɐɐɐɐɐɐɐɐɐɐɐɐ' comment 'x'"

/-- The table specification of `wideningSQL`: one column. -/
def wideningSpec : TableSpec :=
  { Columns := [plainColumn (str "id") (str "int")], Indexes := [], Options := wideningOptions }

/-- The syntax tree of `wideningSQL`. -/
def wideningDDL : DDL :=
  { Action := str "create", NewName := str "t", TableSpec := some wideningSpec }

/-- A table definition whose column `id` is declared auto-increment and
primary key on the column itself. -/
def inlineKeySQL : GoString :=
  str "create table ny_order (id bigint auto_increment primary key)"

/-- The syntax tree of `inlineKeySQL`: the key option of the column is
primary, and there is no table-level index. -/
def inlineKeyStatement : Statement :=
  Statement.ddl
    { Action := str "create"
      NewName := str "ny_order"
      TableSpec := some
        { Columns :=
            [ { Name := str "id"
                Type_ :=
                  { Type_ := str "bigint", NotNull := false, Autoincrement := true,
                    Default := none, Comment := none,
                    KeyOpt := ColumnKeyOption.colKeyPrimary } } ]
          Indexes := []
          Options := [] } }

/-- The field that `Parse` builds for the column `id` of `inlineKeyStatement`. -/
def inlineKeyField : FieldInfo :=
  { Name := str "id", Type_ := str "bigint", IsNull := true, DefaultValue := [],
    Comment := [], IsPrimary := false, IsAutoInc := true }

/-- A table definition whose primary key names a column that is not
declared. -/
def strayKeySQL : GoString := str "create table t (id int, primary key (uid))"

/-- The syntax tree of `strayKeySQL`. -/
def strayKeyStatement : Statement :=
  Statement.ddl
    { Action := str "create"
      NewName := str "t"
      TableSpec := some
        { Columns := [plainColumn (str "id") (str "int")]
          Indexes :=
            [ { Info :=
                  { Type_ := str "primary key", Name := str "PRIMARY", Primary := true,
                    Spatial := false, Unique := true }
                Columns := [ { Column := str "uid", Length := none } ] } ]
          Options := [] } }

/-- The `TableInfo` that `Parse` builds from `strayKeyStatement`. -/
def strayKeyTableInfo : TableInfo :=
  { Name := str "t"
    Comment := []
    Fields :=
      [ { Name := str "id", Type_ := str "int", IsNull := true, DefaultValue := [],
          Comment := [], IsPrimary := false, IsAutoInc := false } ]
    PrimaryKeys := [str "uid"] }

/-- A generator for the package `models`. -/
def modelsGenerator : generator.GORMGenerator :=
  { config :=
      { SQLFile := [], OutputFile := [], TableName := [], PackageName := str "models",
        DSN := [] } }

/-- A generator for the package name `my-models`, which is not a Go
identifier. -/
def dashGenerator : generator.GORMGenerator :=
  { config :=
      { SQLFile := [], OutputFile := [], TableName := [], PackageName := str "my-models",
        DSN := [] } }

/-- A stand-in for `format.Source` on a text it accepts unchanged. -/
def acceptingFormatter : GoString → Except GoString GoString :=
  fun code => Except.ok code

/-- A stand-in for `format.Source` on a text it rejects, with the message of
the syntax error. -/
def rejectingFormatter (message : GoString) : GoString → Except GoString GoString :=
  fun _ => Except.error message

/-- A syntax error message in the form of those of `format.Source`: a
position and what was expected there. -/
def dashMessage : GoString := str "1:11: expected ';', found '-'"

/-- The text that `Generate` assembles for the table of orders, with the
stand-ins `titleWord` and `dropFinalS`, in the package `packageName`. -/
def orderCode (packageName : GoString) : GoString :=
  str "package " ++ packageName ++
    str ("\n\nvar OrderModelIns = new(OrderModel)\n\n" ++
      "// OrderModel orders\n" ++
      "type OrderModel struct \x7b\n" ++
      "\tId\tint64 \x60json:\"id\" " ++
      "gorm:\"column:id;primaryKey;autoIncrement;not null\"\x60\n\t" ++
      "\tOrderNo\tstring \x60json:\"order_no\" gorm:\"column:order_no;not null\"\x60\n\t" ++
      "\tCreatedAt\tstring \x60json:\"created_at\" gorm:\"column:created_at\"\x60\n" ++
      "\x7d\n\n" ++
      "// TableName 表名称\n" ++
      "func (own *OrderModel) TableName() string \x7b\n" ++
      "\treturn \"ny_order\"\n" ++
      "\x7d")

end examples

/-! ## The Go standard library: facts used below -/

namespace strings

theorem Join_nil_sep (l : List GoString) : Join l [] = l.flatten := by
  induction l with
  | nil => rfl
  | cons a t ih =>
    cases t with
    | nil => simp [Join]
    | cons b r => simp only [Join, List.append_nil, List.flatten_cons, ih]

theorem Split_ne_nil (s : GoString) (sep : Nat) : Split s sep ≠ [] := by
  induction s with
  | nil => simp [Split]
  | cons c cs ih =>
    unfold Split
    split_ifs
    · simp
    · split <;> simp

/-- The first piece of a split is the text before the first separator. -/
theorem Split_head (s : GoString) (sep : Nat) :
    (Split s sep).head? = some (s.takeWhile (fun c => decide (c ≠ sep))) := by
  induction s with
  | nil => simp [Split]
  | cons c cs ih =>
    unfold Split
    by_cases h : c = sep
    · simp [h]
    · simp only [h, if_false]
      split
      · next hnil => exact absurd hnil (Split_ne_nil cs sep)
      · next piece rest heq =>
        rw [heq] at ih
        simp only [List.head?_cons, Option.some.injEq] at ih
        simp [List.takeWhile_cons, h, ih]

/-- Joining the pieces of a split with the separator gives the string back. -/
theorem Join_Split (s : GoString) (sep : Nat) : Join (Split s sep) [sep] = s := by
  induction s with
  | nil => simp [Split, Join]
  | cons c cs ih =>
    unfold Split
    by_cases h : c = sep
    · simp only [h, if_true]
      cases hs : Split cs sep with
      | nil => exact absurd hs (Split_ne_nil cs sep)
      | cons p r =>
        rw [hs] at ih
        simp only [Join, List.nil_append, List.singleton_append, ih, h]
    · simp only [h, if_false]
      cases hs : Split cs sep with
      | nil => exact absurd hs (Split_ne_nil cs sep)
      | cons p r =>
        rw [hs] at ih
        cases r with
        | nil => simp only [Join] at ih ⊢; rw [ih]
        | cons q r2 =>
          simp only [Join] at ih ⊢
          simp only [List.cons_append, ih]

/-- No piece of a split contains the separator. -/
theorem Split_no_sep (s : GoString) (sep : Nat) : ∀ p ∈ Split s sep, sep ∉ p := by
  induction s with
  | nil => simp [Split]
  | cons c cs ih =>
    unfold Split
    by_cases h : c = sep
    · simp only [h, if_true]
      intro p hp
      rcases List.mem_cons.1 hp with rfl | hp
      · simp
      · exact ih p hp
    · simp only [h, if_false]
      cases hs : Split cs sep with
      | nil => exact absurd hs (Split_ne_nil cs sep)
      | cons q r =>
        rw [hs] at ih
        intro p hp
        rcases List.mem_cons.1 hp with rfl | hp
        · intro hmem
          rcases List.mem_cons.1 hmem with heq | hmem
          · exact h heq.symm
          · exact ih q (List.mem_cons_self _ _) hmem
        · exact ih p (List.mem_cons_of_mem _ hp)

/-- A string without the separator is its own single piece. -/
theorem Split_of_not_mem (s : GoString) (sep : Nat) (h : sep ∉ s) : Split s sep = [s] := by
  induction s with
  | nil => simp [Split]
  | cons c cs ih =>
    have hc : c ≠ sep := fun e => h (e ▸ List.mem_cons_self _ _)
    have hcs : sep ∉ cs := fun e => h (List.mem_cons_of_mem _ e)
    unfold Split
    simp [hc, ih hcs]

/-- On an all-ASCII string `ToUpper` works byte by byte. -/
theorem ToUpper_ascii (upperCase : Nat → Nat) (s : GoString) (h : ∀ b ∈ s, b < 0x80) :
    ToUpper upperCase s = s.map upperByte := by
  unfold ToUpper
  rw [if_pos]
  simp only [List.all_eq_true, decide_eq_true_eq, utf8.RuneSelf]
  exact h

/-- On an all-ASCII string `ToLower` works byte by byte. -/
theorem ToLower_ascii (lowerCase : Nat → Nat) (s : GoString) (h : ∀ b ∈ s, b < 0x80) :
    ToLower lowerCase s = s.map lowerByte := by
  unfold ToLower
  rw [if_pos]
  simp only [List.all_eq_true, decide_eq_true_eq, utf8.RuneSelf]
  exact h

/-- The search either fails, and then `substr` starts at no offset, or gives
the least offset at which `substr` starts. -/
theorem indexFrom_cases (substr s : GoString) (i : Nat) :
    (indexFrom substr s i = -1 ∧ ∀ k, k ≤ s.length → ¬ substr <+: s.drop k) ∨
    (∃ k, k ≤ s.length ∧ indexFrom substr s i = ((i + k : Nat) : Int) ∧
      substr <+: s.drop k ∧ ∀ j, j < k → ¬ substr <+: s.drop j) := by
  induction s generalizing i with
  | nil =>
    unfold indexFrom
    by_cases h : substr = []
    · right
      exact ⟨0, Nat.le_refl _, by simp [h], by simp [h], fun j hj => absurd hj (Nat.not_lt_zero j)⟩
    · left
      refine ⟨by simp [h], fun k _ hp => h ?_⟩
      simpa using hp
  | cons c cs ih =>
    unfold indexFrom
    by_cases h : substr <+: c :: cs
    · right
      exact ⟨0, Nat.zero_le _, by simp [h], by simpa using h,
        fun j hj => absurd hj (Nat.not_lt_zero j)⟩
    · rw [if_neg h]
      rcases ih (i + 1) with ⟨hnone, hall⟩ | ⟨k, hk, hidx, hpre, hmin⟩
      · left
        refine ⟨hnone, fun k hk => ?_⟩
        cases k with
        | zero => simpa using h
        | succ k =>
          simp only [List.drop_succ_cons]
          exact hall k (by simpa using hk)
      · right
        refine ⟨k + 1, by simpa using hk, ?_, by simpa using hpre, fun j hj => ?_⟩
        · rw [hidx]
          congr 1
          omega
        · cases j with
          | zero => simpa using h
          | succ j =>
            simp only [List.drop_succ_cons]
            exact hmin j (by omega)

/-- `Index` is `-1` when `substr` starts at no offset of `s`. -/
theorem Index_eq_neg_one (s substr : GoString)
    (h : ∀ k, k ≤ s.length → ¬ substr <+: s.drop k) : Index s substr = -1 := by
  unfold Index
  rcases indexFrom_cases substr s 0 with ⟨hnone, _⟩ | ⟨k, hk, _, hpre, _⟩
  · exact hnone
  · exact absurd hpre (h k hk)

/-- `Index` is the least offset at which `substr` starts. -/
theorem Index_eq_first (s substr : GoString) (k : Nat) (hk : k ≤ s.length)
    (hpre : substr <+: s.drop k) (hmin : ∀ j, j < k → ¬ substr <+: s.drop j) :
    Index s substr = (k : Int) := by
  unfold Index
  rcases indexFrom_cases substr s 0 with ⟨_, hall⟩ | ⟨k', _, hidx, hpre', hmin'⟩
  · exact absurd hpre (hall k hk)
  · have hkk : k' = k := by
      rcases Nat.lt_trichotomy k' k with hlt | heq | hgt
      · exact absurd hpre' (hmin k' hlt)
      · exact heq
      · exact absurd hpre (hmin' k hgt)
    rw [hidx, hkk, Nat.zero_add]

/-- `Index` of one byte that does not occur. -/
theorem Index_byte_absent (s : GoString) (q : Nat) (h : q ∉ s) : Index s [q] = -1 := by
  apply Index_eq_neg_one
  intro k _ hpre
  obtain ⟨t, ht⟩ := hpre
  have hmem : q ∈ s.drop k := by
    rw [← ht]
    simp
  exact h (List.mem_of_mem_drop hmem)

/-- `Index` of one byte is the offset of its first occurrence. -/
theorem Index_byte_first (a r : GoString) (q : Nat) (h : q ∉ a) :
    Index (a ++ q :: r) [q] = (a.length : Int) := by
  apply Index_eq_first
  · simp
  · simp
  · intro j hj hpre
    obtain ⟨t, ht⟩ := hpre
    have hdrop : (a ++ q :: r).drop j = a.drop j ++ q :: r := by
      rw [List.drop_append_of_le_length (Nat.le_of_lt hj)]
    rw [hdrop] at ht
    cases hd : a.drop j with
    | nil =>
      have := List.drop_eq_nil_iff.1 hd
      omega
    | cons x xs =>
      rw [hd] at ht
      simp only [List.singleton_append, List.cons_append, List.cons.injEq] at ht
      have hx : x ∈ a := List.mem_of_mem_drop (hd ▸ List.mem_cons_self x xs)
      exact h (ht.1 ▸ hx)

theorem lastIndexFrom_byte_absent (s : GoString) (q i : Nat) (h : q ∉ s) :
    lastIndexFrom [q] s i = -1 := by
  induction s generalizing i with
  | nil => simp [lastIndexFrom]
  | cons c cs ih =>
    have hc : q ≠ c := fun e => h (e ▸ List.mem_cons_self _ _)
    have hcs : q ∉ cs := fun e => h (List.mem_cons_of_mem _ e)
    unfold lastIndexFrom
    simp [ih (i + 1) hcs, hc]

theorem lastIndexFrom_byte_last (a z : GoString) (q i : Nat) (h : q ∉ z) :
    lastIndexFrom [q] (a ++ q :: z) i = ((i + a.length : Nat) : Int) := by
  induction a generalizing i with
  | nil =>
    simp only [List.nil_append, List.length_nil, Nat.add_zero]
    unfold lastIndexFrom
    simp [lastIndexFrom_byte_absent z q (i + 1) h]
  | cons c cs ih =>
    simp only [List.cons_append, List.length_cons]
    unfold lastIndexFrom
    have hne : ((i + 1 + cs.length : Nat) : Int) ≠ -1 := by omega
    simp only [ih (i + 1), hne, ne_eq, not_false_eq_true, if_true]
    congr 1
    omega

/-- `LastIndex` of one byte that does not occur. -/
theorem LastIndex_byte_absent (s : GoString) (q : Nat) (h : q ∉ s) :
    LastIndex s [q] = -1 :=
  lastIndexFrom_byte_absent s q 0 h

/-- `LastIndex` of one byte is the offset of its last occurrence. -/
theorem LastIndex_byte_last (a z : GoString) (q : Nat) (h : q ∉ z) :
    LastIndex (a ++ q :: z) [q] = (a.length : Int) := by
  unfold LastIndex
  rw [lastIndexFrom_byte_last a z q 0 h, Nat.zero_add]

/-- The loop of `Map` gives the same text for two mappings that agree on the
runes it meets. -/
theorem mapRunes_congr (f g : Nat → Nat) (p : Nat → Bool)
    (hfg : ∀ r, p r = true → f r = g r) (fuel : Nat) (s : GoString)
    (h : runesAll p fuel s = true) : mapRunes f fuel s = mapRunes g fuel s := by
  induction fuel generalizing s with
  | zero => simp [mapRunes]
  | succ fuel ih =>
    cases s with
    | nil => simp [mapRunes]
    | cons c cs =>
      simp only [runesAll, Bool.and_eq_true] at h
      simp only [mapRunes]
      rw [hfg _ h.1, ih _ h.2]

end strings

/-! ## The extractor: facts used below -/

namespace parser

open sqlparser

theorem markPrimary_eq (field : FieldInfo) (pks : List GoString) :
    markPrimary field pks
      = { field with IsPrimary := field.IsPrimary || decide (field.Name ∈ pks) } := by
  induction pks with
  | nil => simp [markPrimary]
  | cons pk rest ih =>
    unfold markPrimary
    by_cases h : field.Name = pk
    · simp [h]
    · rw [if_neg h, ih]
      have hdec : decide (field.Name ∈ pk :: rest) = decide (field.Name ∈ rest) := by
        simp [h]
      rw [hdec]

theorem parseColumn_Name (lowerCase : Nat → Nat) (col : ColumnDefinition) :
    (parseColumn lowerCase col).Name = col.Name := by
  unfold parseColumn
  dsimp only
  split <;> split <;> split_ifs <;> rfl

theorem parseColumn_Type (lowerCase : Nat → Nat) (col : ColumnDefinition) :
    (parseColumn lowerCase col).Type_ = strings.ToLower lowerCase col.Type_.Type_ := by
  unfold parseColumn
  dsimp only
  split <;> split <;> split_ifs <;> rfl

theorem parseColumn_IsPrimary (lowerCase : Nat → Nat) (col : ColumnDefinition) :
    (parseColumn lowerCase col).IsPrimary = false := by
  unfold parseColumn
  dsimp only
  split <;> split <;> split_ifs <;> rfl

/-- The column loop appends one parsed field per column definition. -/
theorem foldl_columns (lowerCase : Nat → Nat) (cols : List ColumnDefinition)
    (tableInfo : TableInfo) :
    cols.foldl
        (fun tableInfo col =>
          { tableInfo with Fields := tableInfo.Fields ++ [parseColumn lowerCase col] })
        tableInfo
      = { tableInfo with Fields := tableInfo.Fields ++ cols.map (parseColumn lowerCase) } := by
  induction cols generalizing tableInfo with
  | nil => simp
  | cons col rest ih => simp [ih]

/-- The inner primary-key loop appends the column names of one index. -/
theorem foldl_indexColumns (cols : List IndexColumn) (tableInfo : TableInfo) :
    cols.foldl
        (fun tableInfo col =>
          { tableInfo with PrimaryKeys := tableInfo.PrimaryKeys ++ [col.Column] })
        tableInfo
      = { tableInfo with
          PrimaryKeys := tableInfo.PrimaryKeys ++ cols.map (fun col => col.Column) } := by
  induction cols generalizing tableInfo with
  | nil => simp
  | cons col rest ih => simp [ih]

/-- The primary-key loop appends the column names of the primary indexes, in
the order of declaration. -/
theorem foldl_indexes (idxs : List IndexDefinition) (tableInfo : TableInfo) :
    idxs.foldl
        (fun tableInfo idx =>
          if idx.Info.Primary then
            idx.Columns.foldl
              (fun tableInfo col =>
                { tableInfo with PrimaryKeys := tableInfo.PrimaryKeys ++ [col.Column] })
              tableInfo
          else tableInfo)
        tableInfo
      = { tableInfo with
          PrimaryKeys :=
            tableInfo.PrimaryKeys ++
              (idxs.filter (fun idx => idx.Info.Primary)).flatMap
                (fun idx => idx.Columns.map (fun col => col.Column)) } := by
  induction idxs generalizing tableInfo with
  | nil => simp
  | cons idx rest ih =>
    simp only [foldl_indexColumns] at ih ⊢
    simp only [List.foldl_cons]
    cases h : idx.Info.Primary
    · simp [ih, h]
    · simp [ih, h, List.flatMap_cons]

/-- What lines 65-88 of `Parse` compute. -/
theorem parseTableSpec_eq (lowerCase : Nat → Nat) (tableInfo : TableInfo) (spec : TableSpec) :
    parseTableSpec lowerCase tableInfo spec
      = { Name := tableInfo.Name
          Comment := tableInfo.Comment
          Fields :=
            (tableInfo.Fields ++ spec.Columns.map (parseColumn lowerCase)).map
              (fun field =>
                markPrimary field
                  (tableInfo.PrimaryKeys ++
                    (spec.Indexes.filter (fun idx => idx.Info.Primary)).flatMap
                      (fun idx => idx.Columns.map (fun col => col.Column))))
          PrimaryKeys :=
            tableInfo.PrimaryKeys ++
              (spec.Indexes.filter (fun idx => idx.Info.Primary)).flatMap
                (fun idx => idx.Columns.map (fun col => col.Column)) } := by
  unfold parseTableSpec
  simp only [foldl_columns, foldl_indexes]

/-- An occurrence of a keyword in some letter case shows in the upper-cased
copy at the same offset. -/
theorem prefix_of_occurrence (f : Nat → Nat) (before keyword after : GoString) :
    keyword.map f <+: ((before ++ keyword ++ after).map f).drop before.length := by
  have hdrop : ((before ++ keyword ++ after).map f).drop before.length
      = keyword.map f ++ after.map f := by
    rw [List.map_append, List.map_append, List.append_assoc]
    exact List.drop_left' (by simp)
  rw [hdrop]
  exact List.prefix_append _ _

/-- A keyword that starts at offset `k` of the upper-cased copy is an
occurrence, in some letter case, at offset `k` of the original. -/
theorem occurrence_of_prefix (f : Nat → Nat) (key s : GoString) (k : Nat)
    (hk : k ≤ s.length) (h : key <+: (s.map f).drop k) :
    ∃ before keyword after, s = before ++ keyword ++ after ∧ before.length = k ∧
      keyword.map f = key := by
  refine ⟨s.take k, (s.drop k).take key.length, (s.drop k).drop key.length, ?_, ?_, ?_⟩
  · rw [List.append_assoc, List.take_append_drop, List.take_append_drop]
  · simp [hk]
  · rw [List.map_take, List.map_drop]
    exact (List.prefix_iff_eq_take.1 h).symm

/-- The last occurrence of a byte that occurs. -/
theorem exists_last_occurrence (q : Nat) (s : GoString) (h : q ∈ s) :
    ∃ a z, s = a ++ q :: z ∧ q ∉ z := by
  induction s with
  | nil => simp at h
  | cons c cs ih =>
    by_cases hcs : q ∈ cs
    · obtain ⟨a, z, hs, hz⟩ := ih hcs
      exact ⟨c :: a, z, by rw [hs]; rfl, hz⟩
    · rcases List.mem_cons.1 h with heq | hmem
      · exact ⟨[], cs, by rw [heq]; rfl, hcs⟩
      · exact absurd hmem hcs

/-- A text with fewer than two occurrences of a byte has none, or one. -/
theorem occurrences_lt_two (q : Nat) (s : GoString) (h : s.count q < 2) :
    q ∉ s ∨ ∃ a z, s = a ++ q :: z ∧ q ∉ a ∧ q ∉ z := by
  by_cases hmem : q ∈ s
  · right
    obtain ⟨a, z, hs, ha⟩ := List.eq_append_cons_of_mem hmem
    refine ⟨a, z, hs, ha, ?_⟩
    rw [hs, List.count_append, List.count_cons_self] at h
    have hz : z.count q = 0 := by omega
    exact List.count_eq_zero.1 hz
  · exact Or.inl hmem

/-- A text with two occurrences of a byte or more: its first and its last
one. -/
theorem occurrences_ge_two (q : Nat) (s : GoString) (h : 2 ≤ s.count q) :
    ∃ a mid z, s = a ++ q :: (mid ++ q :: z) ∧ q ∉ a ∧ q ∉ z := by
  have hmem : q ∈ s := List.count_pos_iff.1 (by omega)
  obtain ⟨a, r, hs, ha⟩ := List.eq_append_cons_of_mem hmem
  rw [hs, List.count_append, List.count_cons_self, List.count_eq_zero_of_not_mem ha] at h
  have hr : q ∈ r := List.count_pos_iff.1 (by omega)
  obtain ⟨mid, z, hrz, hz⟩ := exists_last_occurrence q r hr
  exact ⟨a, mid, z, by rw [hs, hrz], ha, hz⟩

theorem quotedText_absent (part : GoString) (h : quote ∉ part) :
    quotedText part = Outcome.returned [] := by
  unfold quotedText
  simp [strings.Contains, strings.Index_byte_absent part quote h]

theorem quotedText_single (a z : GoString) (ha : quote ∉ a) (hz : quote ∉ z) :
    quotedText (a ++ quote :: z) = Outcome.returned [] := by
  unfold quotedText
  simp [strings.Contains, strings.Index_byte_first a z quote ha,
    strings.LastIndex_byte_last a z quote hz]

theorem quotedText_between (a mid z : GoString) (ha : quote ∉ a) (hz : quote ∉ z) :
    quotedText (a ++ quote :: (mid ++ quote :: z)) = Outcome.returned mid := by
  have hfirst := strings.Index_byte_first a (mid ++ quote :: z) quote ha
  have hlast : strings.LastIndex (a ++ quote :: (mid ++ quote :: z)) [quote]
      = ((a ++ quote :: mid).length : Int) := by
    have := strings.LastIndex_byte_last (a ++ quote :: mid) z quote hz
    simpa using this
  have hlen : (a ++ quote :: mid).length = a.length + 1 + mid.length := by
    simp only [List.length_append, List.length_cons]
    omega
  have hcontains : strings.Contains (a ++ quote :: (mid ++ quote :: z)) [quote] = true := by
    simp [strings.Contains, hfirst]
  have hcond : ((a.length : Int) ≠ -1 ∧ ((a.length + 1 + mid.length : Nat) : Int) ≠ -1 ∧
      (a.length : Int) < ((a.length + 1 + mid.length : Nat) : Int)) := by
    refine ⟨by omega, by omega, by omega⟩
  have hbounds : (0 : Int) ≤ (a.length : Int) + 1 ∧
      (a.length : Int) + 1 ≤ ((a.length + 1 + mid.length : Nat) : Int) ∧
      ((a.length + 1 + mid.length : Nat) : Int)
        ≤ ((a ++ quote :: (mid ++ quote :: z)).length : Int) := by
    refine ⟨by omega, by omega, ?_⟩
    simp only [List.length_append, List.length_cons]
    omega
  have hlo : ((a.length : Int) + 1).toNat = (a ++ [quote]).length := by
    simp only [List.length_append, List.length_cons, List.length_nil]
    omega
  have hhi : (((a.length + 1 + mid.length : Nat) : Int)).toNat
      = ((a ++ [quote]) ++ mid).length := by
    simp only [List.length_append, List.length_cons, List.length_nil]
    omega
  have hsplit : a ++ quote :: (mid ++ quote :: z) = ((a ++ [quote]) ++ mid) ++ quote :: z := by
    simp
  unfold quotedText
  rw [if_pos hcontains]
  dsimp only
  rw [hfirst, hlast, hlen, if_pos hcond]
  unfold sliceLowHigh
  rw [if_pos hbounds, hlo, hhi, hsplit, List.take_left, List.drop_left]

/-- An all-ASCII options text without the keyword gives the empty comment. -/
theorem extractTableComment_no_keyword (upperCase : Nat → Nat) (options : GoString)
    (hascii : ∀ b ∈ options, b < 0x80)
    (hno : ∀ before keyword after, options = before ++ keyword ++ after →
      keyword.map strings.upperByte ≠ str "COMMENT") :
    extractTableComment upperCase options = Outcome.returned [] := by
  have hidx : strings.Index (options.map strings.upperByte) (str "COMMENT") = -1 := by
    apply strings.Index_eq_neg_one
    intro k hk hpre
    rw [List.length_map] at hk
    obtain ⟨before, keyword, after, hsplit, _, hkey⟩ :=
      occurrence_of_prefix strings.upperByte (str "COMMENT") options k hk hpre
    exact hno before keyword after hsplit hkey
  unfold extractTableComment
  rw [strings.ToUpper_ascii upperCase options hascii]
  simp [strings.Contains, hidx]

/-- On an all-ASCII options text with the keyword, the comment is looked for
in the text from the first occurrence of the keyword on. -/
theorem extractTableComment_from_keyword (upperCase : Nat → Nat)
    (before keyword after : GoString)
    (hascii : ∀ b ∈ before ++ keyword ++ after, b < 0x80)
    (hkey : keyword.map strings.upperByte = str "COMMENT")
    (hfirst : ∀ before' keyword' after',
      before ++ keyword ++ after = before' ++ keyword' ++ after' →
      keyword'.map strings.upperByte = str "COMMENT" → before.length ≤ before'.length) :
    extractTableComment upperCase (before ++ keyword ++ after)
      = quotedText (keyword ++ after) := by
  have hidx : strings.Index ((before ++ keyword ++ after).map strings.upperByte)
      (str "COMMENT") = (before.length : Int) := by
    apply strings.Index_eq_first
    · simp only [List.length_map, List.length_append]
      omega
    · rw [← hkey]
      exact prefix_of_occurrence strings.upperByte before keyword after
    · intro j hj hpre
      have hjlen : j ≤ (before ++ keyword ++ after).length := by
        simp only [List.length_append]
        omega
      obtain ⟨before', keyword', after', hsplit, hlen, hkey'⟩ :=
        occurrence_of_prefix strings.upperByte (str "COMMENT") _ j hjlen hpre
      have := hfirst before' keyword' after' hsplit hkey'
      omega
  have hslice : sliceLow (before ++ keyword ++ after) (before.length : Int)
      = Outcome.returned (keyword ++ after) := by
    unfold sliceLow
    have hbounds : (0 : Int) ≤ (before.length : Int) ∧
        (before.length : Int) ≤ ((before ++ keyword ++ after).length : Int) := by
      refine ⟨by omega, ?_⟩
      simp only [List.length_append]
      omega
    rw [if_pos hbounds, Int.toNat_ofNat, List.append_assoc, List.drop_left]
  have hne : (before.length : Int) ≠ -1 := by omega
  have hcontains : strings.Contains ((before ++ keyword ++ after).map strings.upperByte)
      (str "COMMENT") = true := by
    unfold strings.Contains
    rw [hidx]
    exact decide_eq_true (Int.ofNat_nonneg _)
  unfold extractTableComment
  rw [strings.ToUpper_ascii upperCase _ hascii, if_pos hcontains]
  dsimp only
  rw [hidx, if_pos hne, hslice]

/-- For the options `wideningOptions` the upper-cased copy is twelve bytes
longer than the original, the offset of the keyword in it lies behind the end
of the original, and the slice expression panics. -/
theorem extractTableComment_widening (upperCase : Nat → Nat)
    (hcase : upperCase 0x250 = 0x2C6F) :
    extractTableComment upperCase examples.wideningOptions = Outcome.panicked := by
  have hagree : ∀ r, (decide (r ≤ 0x7F) || decide (r = 0x250)) = true →
      unicode.ToUpper upperCase r = unicode.ToUpper examples.turnedA r := by
    intro r hr
    simp only [Bool.or_eq_true, decide_eq_true_eq] at hr
    rcases hr with h | h
    · simp [unicode.ToUpper, h]
    · subst h
      simp [unicode.ToUpper, examples.turnedA, hcase]
  have hup : strings.ToUpper upperCase examples.wideningOptions
      = strings.ToUpper examples.turnedA examples.wideningOptions := by
    unfold strings.ToUpper strings.Map
    rw [strings.mapRunes_congr (unicode.ToUpper upperCase)
      (unicode.ToUpper examples.turnedA)
      (fun r => decide (r ≤ 0x7F) || decide (r = 0x250)) hagree _ _ (by decide)]
  have hsame : extractTableComment upperCase examples.wideningOptions
      = extractTableComment examples.turnedA examples.wideningOptions := by
    unfold extractTableComment
    rw [hup]
  rw [hsame]
  decide

/-- `Parse` on a create statement with a table specification whose comment
extraction returns. -/
theorem Parse_of_spec (sqlparserParse : GoString → Except GoString Statement)
    (upperCase lowerCase : Nat → Nat) (sql : GoString) (ddl : DDL) (spec : TableSpec)
    (comment : GoString)
    (hparse : sqlparserParse sql = Except.ok (Statement.ddl ddl))
    (haction : ddl.Action = str "create") (hspec : ddl.TableSpec = some spec)
    (hcomment : extractTableComment upperCase spec.Options = Outcome.returned comment) :
    Parse sqlparserParse upperCase lowerCase sql
      = Outcome.returned
          (some (parseTableSpec lowerCase
            { Name := ddl.NewName, Comment := comment, Fields := [], PrimaryKeys := [] } spec),
            none) := by
  unfold Parse
  simp only [hparse, haction, hspec, hcomment, ne_eq, not_true_eq_false, if_false]

/-- `Parse` on a create statement with a table specification whose comment
extraction panics. -/
theorem Parse_of_spec_panicked (sqlparserParse : GoString → Except GoString Statement)
    (upperCase lowerCase : Nat → Nat) (sql : GoString) (ddl : DDL) (spec : TableSpec)
    (hparse : sqlparserParse sql = Except.ok (Statement.ddl ddl))
    (haction : ddl.Action = str "create") (hspec : ddl.TableSpec = some spec)
    (hcomment : extractTableComment upperCase spec.Options = Outcome.panicked) :
    Parse sqlparserParse upperCase lowerCase sql = Outcome.panicked := by
  unfold Parse
  simp only [hparse, haction, hspec, hcomment, ne_eq, not_true_eq_false, if_false]

/-- `Parse` on a create statement without a table specification. -/
theorem Parse_of_no_spec (sqlparserParse : GoString → Except GoString Statement)
    (upperCase lowerCase : Nat → Nat) (sql : GoString) (ddl : DDL)
    (hparse : sqlparserParse sql = Except.ok (Statement.ddl ddl))
    (haction : ddl.Action = str "create") (hspec : ddl.TableSpec = none) :
    Parse sqlparserParse upperCase lowerCase sql
      = Outcome.returned
          (some { Name := ddl.NewName, Comment := [], Fields := [], PrimaryKeys := [] },
            none) := by
  unfold Parse
  simp only [hparse, haction, hspec, ne_eq, not_true_eq_false, if_false]

/-- A `TableInfo` returned by `Parse` comes from a create statement, without a
table specification or with one whose comment extraction returned; the error
is then nil. -/
theorem Parse_returned_some (sqlparserParse : GoString → Except GoString Statement)
    (upperCase lowerCase : Nat → Nat) (sql : GoString) (tableInfo : TableInfo)
    (err : Option GoString)
    (h : Parse sqlparserParse upperCase lowerCase sql
      = Outcome.returned (some tableInfo, err)) :
    err = none ∧
    ∃ ddl, sqlparserParse sql = Except.ok (Statement.ddl ddl) ∧ ddl.Action = str "create" ∧
      ((ddl.TableSpec = none ∧
          tableInfo
            = { Name := ddl.NewName, Comment := [], Fields := [], PrimaryKeys := [] }) ∨
        ∃ spec comment, ddl.TableSpec = some spec ∧
          extractTableComment upperCase spec.Options = Outcome.returned comment ∧
          tableInfo
            = parseTableSpec lowerCase
                { Name := ddl.NewName, Comment := comment, Fields := [], PrimaryKeys := [] }
                spec) := by
  unfold Parse at h
  cases hp : sqlparserParse sql with
  | error e => simp [hp] at h
  | ok stmt =>
    cases stmt with
    | other => simp [hp] at h
    | ddl d =>
      simp only [hp] at h
      by_cases ha : d.Action = str "create"
      · simp only [ha, ne_eq, not_true_eq_false, if_false] at h
        cases hs : d.TableSpec with
        | none =>
          simp only [hs, Outcome.returned.injEq, Prod.mk.injEq, Option.some.injEq] at h
          exact ⟨h.2.symm, d, rfl, ha, Or.inl ⟨hs, h.1.symm⟩⟩
        | some spec =>
          simp only [hs] at h
          cases hc : extractTableComment upperCase spec.Options with
          | panicked => simp [hc] at h
          | returned comment =>
            simp only [hc, Outcome.returned.injEq, Prod.mk.injEq, Option.some.injEq] at h
            exact ⟨h.2.symm, d, rfl, ha, Or.inr ⟨spec, comment, hs, hc, h.1.symm⟩⟩
      · simp [ha] at h

/-- Whenever the comment extraction returns, `Parse` on a create statement
with a table specification returns a `TableInfo` with one field per column
definition, the i-th field having the name and the lower-cased type of the
i-th column. -/
theorem Parse_fields_of_spec (sqlparserParse : GoString → Except GoString Statement)
    (upperCase lowerCase : Nat → Nat) (sql : GoString) (ddl : DDL) (spec : TableSpec)
    (comment : GoString)
    (hparse : sqlparserParse sql = Except.ok (Statement.ddl ddl))
    (haction : ddl.Action = str "create") (hspec : ddl.TableSpec = some spec)
    (hcomment : extractTableComment upperCase spec.Options = Outcome.returned comment) :
    ∃ tableInfo,
      Parse sqlparserParse upperCase lowerCase sql = Outcome.returned (some tableInfo, none) ∧
      tableInfo.Fields.length = spec.Columns.length ∧
      ∀ i (hi : i < spec.Columns.length) (hf : i < tableInfo.Fields.length),
        (tableInfo.Fields.get ⟨i, hf⟩).Name = (spec.Columns.get ⟨i, hi⟩).Name ∧
        (tableInfo.Fields.get ⟨i, hf⟩).Type_
          = strings.ToLower lowerCase (spec.Columns.get ⟨i, hi⟩).Type_.Type_ := by
  refine ⟨_, Parse_of_spec sqlparserParse upperCase lowerCase sql ddl spec comment hparse
    haction hspec hcomment, ?_, ?_⟩
  · rw [parseTableSpec_eq]
    simp
  · intro i hi hf
    simp only [parseTableSpec_eq, List.nil_append, List.get_eq_getElem, List.getElem_map,
      markPrimary_eq, parseColumn_Name, parseColumn_Type, and_self]

/-- `Parse` returns an error exactly when the SQL parser reports an error, or
the statement is not a DDL statement, or it is one whose action is not
`create`; the `TableInfo` is then nil. -/
theorem Parse_error_iff (sqlparserParse : GoString → Except GoString Statement)
    (upperCase lowerCase : Nat → Nat) (sql : GoString) :
    (∃ tableInfo err, Parse sqlparserParse upperCase lowerCase sql
        = Outcome.returned (tableInfo, some err)) ↔
      ((∃ err, sqlparserParse sql = Except.error err) ∨
        sqlparserParse sql = Except.ok Statement.other ∨
        ∃ ddl, sqlparserParse sql = Except.ok (Statement.ddl ddl) ∧
          ddl.Action ≠ str "create") := by
  unfold Parse
  cases hp : sqlparserParse sql with
  | error e => simp
  | ok stmt =>
    cases stmt with
    | other => simp
    | ddl d =>
      by_cases ha : d.Action = str "create"
      · simp only [ha, ne_eq, not_true_eq_false, if_false]
        cases hs : d.TableSpec with
        | none => simp [ha]
        | some spec =>
          cases hc : extractTableComment upperCase spec.Options with
          | panicked => simp [ha, hc]
          | returned comment => simp [ha, hc]
      · simp [ha]

/-- `Parse` panics on the table definition `wideningSQL`. -/
theorem Parse_widening (sqlparserParse : GoString → Except GoString Statement)
    (upperCase lowerCase : Nat → Nat)
    (hparse : sqlparserParse examples.wideningSQL
      = Except.ok (Statement.ddl examples.wideningDDL))
    (hcase : upperCase 0x250 = 0x2C6F) :
    Parse sqlparserParse upperCase lowerCase examples.wideningSQL = Outcome.panicked :=
  Parse_of_spec_panicked sqlparserParse upperCase lowerCase examples.wideningSQL
    examples.wideningDDL examples.wideningSpec hparse rfl rfl
    (extractTableComment_widening upperCase hcase)

end parser

namespace generator

open parser

/-- The loop that collects the title-cased non-empty segments. -/
theorem foldl_nameParts (Title : GoString → GoString) (parts acc : List GoString) :
    parts.foldl
        (fun nameParts part => if part ≠ [] then nameParts ++ [Title part] else nameParts) acc
      = acc ++ (parts.filter (fun part => decide (part ≠ []))).map Title := by
  induction parts generalizing acc with
  | nil => simp
  | cons p ps ih =>
    simp only [List.foldl_cons, ih]
    by_cases hp : p = []
    · simp [hp]
    · simp [hp]

end generator

/-! ## The claims about the generator -/

namespace generator

open parser examples

/-- C1: `generateGORMTags` returns `gorm:"F"`, where `F` joins with `;` these
fragments in this order: `column:` and the field name (always, first);
`primaryKey` iff `IsPrimary`; `autoIncrement` iff `IsAutoInc`; a default
fragment iff `DefaultValue` is non-empty, being `default:CURRENT_TIMESTAMP` for
the value `CURRENT_TIMESTAMP`, `default:null` for the value `NULL` and
`default:` with the value otherwise; `not null` iff `IsNull` is false (last).
A condition that does not hold contributes no fragment. -/
theorem generateGORMTags_fragments (field : FieldInfo) :
    generateGORMTags field =
      str "gorm:\"" ++
        strings.Join
          ([str "column:" ++ field.Name]
            ++ (if field.IsPrimary = true then [str "primaryKey"] else [])
            ++ (if field.IsAutoInc = true then [str "autoIncrement"] else [])
            ++ (if field.DefaultValue = [] then []
                else if field.DefaultValue = str "CURRENT_TIMESTAMP" then
                  [str "default:CURRENT_TIMESTAMP"]
                else if field.DefaultValue = str "NULL" then [str "default:null"]
                else [str "default:" ++ field.DefaultValue])
            ++ (if field.IsNull = false then [str "not null"] else []))
          (str ";")
        ++ str "\"" := by
  unfold generateGORMTags
  cases field.IsPrimary <;> cases field.IsAutoInc <;> cases field.IsNull <;>
    simp only [ne_eq, ite_not, Bool.not_true, Bool.not_false, if_true, if_false,
      Bool.false_eq_true, List.nil_append, List.append_nil] <;>
    split_ifs <;> first | contradiction | simp

/-- C2: `mapMySQLTypeToGoType` never fails and is decided by the text of the
type before its first `(`: `int64` for tinyint, smallint, mediumint, int and
bigint; `float64` for float, double and decimal; `[]byte` for blob, tinyblob,
mediumblob and longblob; `string` for every other base name.  The result is
never empty; `varchar(32)` gives `string` and `decimal(10,2)` gives
`float64`. -/
theorem mapMySQLTypeToGoType_table (t : GoString) :
    (∃ goType, mapMySQLTypeToGoType t = Outcome.returned goType ∧ goType ≠ []) ∧
    mapMySQLTypeToGoType t
      = mapMySQLTypeToGoType (t.takeWhile (fun c => decide (c ≠ '('.toNat))) ∧
    (t.takeWhile (fun c => decide (c ≠ '('.toNat))
        ∈ [str "tinyint", str "smallint", str "mediumint", str "int", str "bigint"] →
      mapMySQLTypeToGoType t = Outcome.returned (str "int64")) ∧
    (t.takeWhile (fun c => decide (c ≠ '('.toNat))
        ∈ [str "float", str "double", str "decimal"] →
      mapMySQLTypeToGoType t = Outcome.returned (str "float64")) ∧
    (t.takeWhile (fun c => decide (c ≠ '('.toNat))
        ∈ [str "blob", str "tinyblob", str "mediumblob", str "longblob"] →
      mapMySQLTypeToGoType t = Outcome.returned (str "[]byte")) ∧
    (t.takeWhile (fun c => decide (c ≠ '('.toNat))
        ∉ [str "tinyint", str "smallint", str "mediumint", str "int", str "bigint",
            str "float", str "double", str "decimal",
            str "blob", str "tinyblob", str "mediumblob", str "longblob"] →
      mapMySQLTypeToGoType t = Outcome.returned (str "string")) ∧
    mapMySQLTypeToGoType (str "varchar(32)") = Outcome.returned (str "string") ∧
    mapMySQLTypeToGoType (str "decimal(10,2)") = Outcome.returned (str "float64") := by
  have hbase : ∀ u : GoString,
      elemAt (strings.Split u '('.toNat) 0
        = Outcome.returned (u.takeWhile (fun c => decide (c ≠ '('.toNat))) := by
    intro u
    have h := strings.Split_head u '('.toNat
    cases hs : strings.Split u '('.toNat with
    | nil => exact absurd hs (strings.Split_ne_nil u _)
    | cons piece rest =>
      rw [hs] at h
      simp only [List.head?_cons, Option.some.injEq] at h
      simp [elemAt, h]
  have hidem : ∀ u : GoString,
      elemAt (strings.Split (u.takeWhile (fun c => decide (c ≠ '('.toNat))) '('.toNat) 0
        = Outcome.returned (u.takeWhile (fun c => decide (c ≠ '('.toNat))) := by
    intro u
    rw [hbase, List.takeWhile_idem]
  refine ⟨?_, ?_, ?_, ?_, ?_, ?_, by decide, by decide⟩
  · unfold mapMySQLTypeToGoType
    rw [hbase]
    dsimp only
    split_ifs <;> exact ⟨_, rfl, by decide⟩
  · unfold mapMySQLTypeToGoType
    rw [hbase, hidem]
  · intro h
    unfold mapMySQLTypeToGoType
    rw [hbase]
    simp only [List.mem_cons, List.mem_singleton, List.not_mem_nil, or_false] at h
    rcases h with h | h | h | h | h <;> rw [h] <;> decide
  · intro h
    unfold mapMySQLTypeToGoType
    rw [hbase]
    simp only [List.mem_cons, List.mem_singleton, List.not_mem_nil, or_false] at h
    rcases h with h | h | h <;> rw [h] <;> decide
  · intro h
    unfold mapMySQLTypeToGoType
    rw [hbase]
    simp only [List.mem_cons, List.mem_singleton, List.not_mem_nil, or_false] at h
    rcases h with h | h | h | h <;> rw [h] <;> decide
  · intro h
    unfold mapMySQLTypeToGoType
    rw [hbase]
    simp only [List.mem_cons, List.mem_singleton, List.not_mem_nil, or_false, not_or] at h
    obtain ⟨h1, h2, h3, h4, h5, h6, h7, h8, h9, h10, h11, h12⟩ := h
    dsimp only
    split_ifs <;> first | rfl | (exfalso; tauto)

/-- C3: `generateStructName` splits the table name on `_` and drops the first
segment.  If a remaining segment is non-empty, the result is `Singular` of the
concatenated `Title`s of the non-empty remaining segments, in order, followed
by `Model` (`ny_order`: `Singular (Title order)` and `Model`); otherwise, so
for every name without an underscore, it is `Title tableName` (`orders`:
`Title orders`). -/
theorem generateStructName_segments (Title Singular : GoString → GoString)
    (tableName : GoString) :
    (strings.Join (strings.Split tableName '_'.toNat) (str "_") = tableName ∧
      ∀ segment ∈ strings.Split tableName '_'.toNat, '_'.toNat ∉ segment) ∧
    ((∃ segment ∈ (strings.Split tableName '_'.toNat).drop 1, segment ≠ []) →
      generateStructName Title Singular tableName
        = Outcome.returned
            (Singular
                ((((strings.Split tableName '_'.toNat).drop 1).filter
                    (fun segment => decide (segment ≠ []))).map Title).flatten
              ++ str "Model")) ∧
    ((∀ segment ∈ (strings.Split tableName '_'.toNat).drop 1, segment = []) →
      generateStructName Title Singular tableName = Outcome.returned (Title tableName)) ∧
    ('_'.toNat ∉ tableName →
      generateStructName Title Singular tableName = Outcome.returned (Title tableName)) ∧
    generateStructName Title Singular (str "ny_order")
      = Outcome.returned (Singular (Title (str "order")) ++ str "Model") ∧
    generateStructName Title Singular (str "orders")
      = Outcome.returned (Title (str "orders")) := by
  have hunder : str "_" = ['_'.toNat] := by decide
  have hfold : ∀ name : GoString,
      generateStructName Title Singular name
        = if ((((strings.Split name '_'.toNat).drop 1).filter
                (fun segment => decide (segment ≠ []))).map Title).length = 0 then
            Outcome.returned (Title name)
          else
            Outcome.returned
              (Singular
                  ((((strings.Split name '_'.toNat).drop 1).filter
                      (fun segment => decide (segment ≠ []))).map Title).flatten
                ++ str "Model") := by
    intro name
    have hlen : (1 : Int) ≤ ((strings.Split name '_'.toNat).length : Int) := by
      have := List.length_pos.2 (strings.Split_ne_nil name '_'.toNat)
      omega
    unfold generateStructName
    simp only [sliceLow, hlen, foldl_nameParts, List.nil_append, strings.Join_nil_sep]
    simp
  have hempty : ∀ name : GoString,
      (∀ segment ∈ (strings.Split name '_'.toNat).drop 1, segment = []) →
      generateStructName Title Singular name = Outcome.returned (Title name) := by
    intro name h
    rw [hfold]
    have hnil : ((strings.Split name '_'.toNat).drop 1).filter
        (fun segment => decide (segment ≠ [])) = [] := by
      rw [List.filter_eq_nil_iff]
      intro a ha
      simp [h a ha]
    rw [hnil]
    rfl
  have hnone : ∀ name : GoString, '_'.toNat ∉ name →
      generateStructName Title Singular name = Outcome.returned (Title name) := by
    intro name h
    apply hempty
    rw [strings.Split_of_not_mem name _ h]
    simp
  refine ⟨⟨?_, strings.Split_no_sep tableName _⟩, ?_, hempty tableName, hnone tableName,
    ?_, hnone _ (by decide)⟩
  · rw [hunder]
    exact strings.Join_Split tableName _
  · rintro ⟨segment, hmem, hne⟩
    rw [hfold]
    have hfilter : segment ∈ ((strings.Split tableName '_'.toNat).drop 1).filter
        (fun segment => decide (segment ≠ [])) := by
      rw [List.mem_filter]
      exact ⟨hmem, by simp [hne]⟩
    have hlen : ((((strings.Split tableName '_'.toNat).drop 1).filter
        (fun segment => decide (segment ≠ []))).map Title).length ≠ 0 := by
      rw [List.length_map]
      exact Nat.ne_of_gt (List.length_pos_of_mem hfilter)
    rw [if_neg hlen]
  · rw [hfold]
    have hsplit : strings.Split (str "ny_order") '_'.toNat = [str "ny", str "order"] := by
      decide
    rw [hsplit]
    have hfilter : (List.drop 1 [str "ny", str "order"]).filter
        (fun segment => decide (segment ≠ [])) = [str "order"] := by decide
    rw [hfilter]
    simp

/-- C3, with the stand-ins `titleWord` and `dropFinalS`: `ny_order` gives
`OrderModel`, `orders` gives `Orders`. -/
theorem generateStructName_segments_witness :
    generateStructName titleWord dropFinalS (str "ny_order")
      = Outcome.returned (str "OrderModel") ∧
    generateStructName titleWord dropFinalS (str "orders")
      = Outcome.returned (str "Orders") :=
  ⟨(generateStructName_segments titleWord dropFinalS (str "ny_order")).2.2.2.2.1.trans
      (by decide),
    ((generateStructName_segments titleWord dropFinalS (str "orders")).2.2.2.1
      (by decide)).trans (by decide)⟩

/-- C4: `generateGoFieldName` returns the concatenation, in order and without a
separator, of `Title s` over all non-empty `_`-separated segments `s` of the
column name, the first one included; as `Title` never produces an underscore
from a segment without one, the result contains none (`order_no`:
`Title order` and `Title no`; `created_at`: `Title created` and `Title at`). -/
theorem generateGoFieldName_segments (Title : GoString → GoString) (dbFieldName : GoString) :
    (strings.Join (strings.Split dbFieldName '_'.toNat) (str "_") = dbFieldName ∧
      ∀ segment ∈ strings.Split dbFieldName '_'.toNat, '_'.toNat ∉ segment) ∧
    generateGoFieldName Title dbFieldName
      = (((strings.Split dbFieldName '_'.toNat).filter
            (fun segment => decide (segment ≠ []))).map Title).flatten ∧
    ((∀ segment : GoString, '_'.toNat ∉ segment → '_'.toNat ∉ Title segment) →
      '_'.toNat ∉ generateGoFieldName Title dbFieldName) ∧
    generateGoFieldName Title (str "order_no") = Title (str "order") ++ Title (str "no") ∧
    generateGoFieldName Title (str "created_at")
      = Title (str "created") ++ Title (str "at") := by
  have hunder : str "_" = ['_'.toNat] := by decide
  have hfold : ∀ name : GoString,
      generateGoFieldName Title name
        = (((strings.Split name '_'.toNat).filter
              (fun segment => decide (segment ≠ []))).map Title).flatten := by
    intro name
    unfold generateGoFieldName
    simp only [foldl_nameParts, List.nil_append, strings.Join_nil_sep]
  refine ⟨⟨?_, strings.Split_no_sep dbFieldName _⟩, hfold dbFieldName, ?_, ?_, ?_⟩
  · rw [hunder]
    exact strings.Join_Split dbFieldName _
  · intro hTitle hmem
    rw [hfold, List.mem_flatten] at hmem
    obtain ⟨piece, hpiece, hin⟩ := hmem
    rw [List.mem_map] at hpiece
    obtain ⟨segment, hseg, rfl⟩ := hpiece
    exact hTitle segment
      (strings.Split_no_sep dbFieldName _ segment (List.mem_of_mem_filter hseg)) hin
  · rw [hfold]
    have hsplit : (strings.Split (str "order_no") '_'.toNat).filter
        (fun segment => decide (segment ≠ [])) = [str "order", str "no"] := by decide
    rw [hsplit]
    simp
  · rw [hfold]
    have hsplit : (strings.Split (str "created_at") '_'.toNat).filter
        (fun segment => decide (segment ≠ [])) = [str "created", str "at"] := by decide
    rw [hsplit]
    simp

/-- C4, with the stand-in `titleWord`, which adds no underscore: `order_no`
gives `OrderNo`, without an underscore. -/
theorem generateGoFieldName_segments_witness :
    (∀ segment : GoString, '_'.toNat ∉ segment → '_'.toNat ∉ titleWord segment) ∧
    generateGoFieldName titleWord (str "order_no") = str "OrderNo" ∧
    '_'.toNat ∉ generateGoFieldName titleWord (str "order_no") := by
  have hTitle : ∀ segment : GoString, '_'.toNat ∉ segment → '_'.toNat ∉ titleWord segment := by
    intro segment hseg hmem
    cases segment with
    | nil => simp [titleWord] at hmem
    | cons c cs =>
      simp only [titleWord, List.mem_cons] at hmem
      rcases hmem with h | h
      · have hc : c ≠ '_'.toNat := fun e => hseg (e ▸ List.mem_cons_self _ _)
        unfold strings.upperByte at h
        have h95 : '_'.toNat = 95 := by decide
        have ha : 'a'.toNat = 97 := by decide
        have hz : 'z'.toNat = 122 := by decide
        have hA : 'A'.toNat = 65 := by decide
        rw [h95, ha, hz, hA] at h
        rw [h95] at hc
        split_ifs at h <;> omega
      · exact hseg (List.mem_cons_of_mem _ h)
  exact ⟨hTitle,
    (generateGoFieldName_segments titleWord (str "order_no")).2.2.2.1.trans (by decide),
    (generateGoFieldName_segments titleWord (str "order_no")).2.2.1 hTitle⟩

end generator

/-! ## The claims about the extractor -/

namespace parser

open sqlparser examples

/-- C5, where the code departs from it: `wideningSQL` is a table definition
whose syntax tree has action `create` and a table specification with one
column definition, and `Parse` returns no `TableInfo` for it: it panics in the
comment extraction, before the column loop, as upper-casing lengthens the
options text. -/
theorem Parse_widening_no_fields (sqlparserParse : GoString → Except GoString Statement)
    (upperCase lowerCase : Nat → Nat)
    (hparse : sqlparserParse wideningSQL = Except.ok (Statement.ddl wideningDDL))
    (hcase : upperCase 0x250 = 0x2C6F) :
    wideningDDL.Action = str "create" ∧
    (∃ spec, wideningDDL.TableSpec = some spec ∧ spec.Columns.length = 1) ∧
    Parse sqlparserParse upperCase lowerCase wideningSQL = Outcome.panicked ∧
    ∀ tableInfo err, Parse sqlparserParse upperCase lowerCase wideningSQL
      ≠ Outcome.returned (some tableInfo, err) := by
  have hpanic := Parse_widening sqlparserParse upperCase lowerCase hparse hcase
  refine ⟨rfl, ⟨wideningSpec, rfl, rfl⟩, hpanic, fun tableInfo err h => ?_⟩
  rw [hpanic] at h
  cases h

/-- C5, the departure, with a parser that knows `wideningSQL` and the case
table entry of U+0250. -/
theorem Parse_widening_no_fields_witness :
    (parserOf wideningSQL (Statement.ddl wideningDDL) wideningSQL
        = Except.ok (Statement.ddl wideningDDL) ∧
      turnedA 0x250 = 0x2C6F) ∧
    Parse (parserOf wideningSQL (Statement.ddl wideningDDL)) turnedA id wideningSQL
      = Outcome.panicked :=
  ⟨⟨by simp [parserOf], by decide⟩,
    (Parse_widening_no_fields (parserOf wideningSQL (Statement.ddl wideningDDL)) turnedA id
      (by simp [parserOf]) (by decide)).2.2.1⟩

/-- C6: in every `TableInfo` returned by a successful `Parse`, a field has
`IsPrimary` true if and only if its name occurs in `PrimaryKeys`, and
`PrimaryKeys` lists the columns of every index whose kind is primary, in the
order of declaration (none when the statement has no table specification). -/
theorem Parse_IsPrimary_iff (sqlparserParse : GoString → Except GoString Statement)
    (upperCase lowerCase : Nat → Nat) (sql : GoString) (tableInfo : TableInfo)
    (h : Parse sqlparserParse upperCase lowerCase sql
      = Outcome.returned (some tableInfo, none)) :
    (∀ field ∈ tableInfo.Fields,
      field.IsPrimary = true ↔ field.Name ∈ tableInfo.PrimaryKeys) ∧
    ∃ ddl, sqlparserParse sql = Except.ok (Statement.ddl ddl) ∧
      tableInfo.PrimaryKeys
        = match ddl.TableSpec with
          | none => []
          | some spec =>
            (spec.Indexes.filter (fun idx => idx.Info.Primary)).flatMap
              (fun idx => idx.Columns.map (fun col => col.Column)) := by
  obtain ⟨_, ddl, hparse, _, hcase⟩ :=
    Parse_returned_some sqlparserParse upperCase lowerCase sql tableInfo none h
  rcases hcase with ⟨hspec, hinfo⟩ | ⟨spec, comment, hspec, _, hinfo⟩
  · subst hinfo
    refine ⟨fun field hfield => ?_, ddl, hparse, by rw [hspec]⟩
    simp at hfield
  · rw [parseTableSpec_eq] at hinfo
    subst hinfo
    refine ⟨fun field hfield => ?_, ddl, hparse, by rw [hspec]; simp⟩
    simp only [List.nil_append, List.mem_map] at hfield
    obtain ⟨parsed, ⟨col, _, hcol⟩, hmark⟩ := hfield
    subst hcol
    rw [markPrimary_eq] at hmark
    subst hmark
    simp [parseColumn_IsPrimary]

/-- C6, at the table of orders: `Parse` succeeds, only `id` is primary and
`PrimaryKeys` is the column list of the primary index. -/
theorem Parse_IsPrimary_iff_witness :
    Parse (parserOf orderSQL orderStatement) id id orderSQL
        = Outcome.returned (some orderTableInfo, none) ∧
    ((∀ field ∈ orderTableInfo.Fields,
      field.IsPrimary = true ↔ field.Name ∈ orderTableInfo.PrimaryKeys) ∧
    ∃ ddl, parserOf orderSQL orderStatement orderSQL = Except.ok (Statement.ddl ddl) ∧
      orderTableInfo.PrimaryKeys
        = match ddl.TableSpec with
          | none => []
          | some spec =>
            (spec.Indexes.filter (fun idx => idx.Info.Primary)).flatMap
              (fun idx => idx.Columns.map (fun col => col.Column))) :=
  ⟨by decide,
    Parse_IsPrimary_iff (parserOf orderSQL orderStatement) id id orderSQL orderTableInfo
      (by decide)⟩

/-- C7, where the code departs from it: for `wideningSQL` the SQL parser
reports no error and the statement is a DDL statement with action `create`,
yet `Parse` returns neither an error nor a `TableInfo`: it panics. -/
theorem Parse_widening_no_results (sqlparserParse : GoString → Except GoString Statement)
    (upperCase lowerCase : Nat → Nat)
    (hparse : sqlparserParse wideningSQL = Except.ok (Statement.ddl wideningDDL))
    (hcase : upperCase 0x250 = 0x2C6F) :
    (∀ err, sqlparserParse wideningSQL ≠ Except.error err) ∧
    sqlparserParse wideningSQL ≠ Except.ok Statement.other ∧
    (∀ ddl, sqlparserParse wideningSQL = Except.ok (Statement.ddl ddl) →
      ddl.Action = str "create") ∧
    ∀ results, Parse sqlparserParse upperCase lowerCase wideningSQL
      ≠ Outcome.returned results := by
  have hpanic := Parse_widening sqlparserParse upperCase lowerCase hparse hcase
  refine ⟨fun err h => ?_, fun h => ?_, fun ddl h => ?_, fun results h => ?_⟩
  · rw [hparse] at h
    cases h
  · rw [hparse] at h
    cases h
  · rw [hparse] at h
    cases h
    rfl
  · rw [hpanic] at h
    cases h

/-- C7, the departure, with a parser that knows `wideningSQL` and the case
table entry of U+0250. -/
theorem Parse_widening_no_results_witness :
    (parserOf wideningSQL (Statement.ddl wideningDDL) wideningSQL
        = Except.ok (Statement.ddl wideningDDL) ∧
      turnedA 0x250 = 0x2C6F) ∧
    ∀ results, Parse (parserOf wideningSQL (Statement.ddl wideningDDL)) turnedA id wideningSQL
      ≠ Outcome.returned results :=
  ⟨⟨by simp [parserOf], by decide⟩,
    (Parse_widening_no_results (parserOf wideningSQL (Statement.ddl wideningDDL)) turnedA id
      (by simp [parserOf]) (by decide)).2.2.2⟩

/-- C8 as stated fails: for the view definition `viewSQL`, whose syntax tree
has action `create` and no table specification, `Parse` returns no error and a
`TableInfo` without fields. -/
theorem Parse_accepts_create_view :
    viewStatement
        = Statement.ddl
            { Action := str "create", NewName := str "order_view", TableSpec := none } ∧
    Parse (parserOf viewSQL viewStatement) id id viewSQL
        = Outcome.returned (some viewTableInfo, none) ∧
    viewTableInfo.Fields = [] := by
  decide

/-- C8, amended: `Parse` accepts only DDL statements with action `create`.
Whenever it succeeds the statement is one, and the `TableInfo` has one field
per column definition of the table specification (a non-empty field list as
soon as the specification has a column).  A statement with action `create` and
no table specification is not rejected: `Parse` returns no error and a
`TableInfo` with the name of the statement, an empty comment, no field and no
primary key. -/
theorem Parse_accepts_create_only (sqlparserParse : GoString → Except GoString Statement)
    (upperCase lowerCase : Nat → Nat) (sql : GoString) :
    (∀ tableInfo, Parse sqlparserParse upperCase lowerCase sql
        = Outcome.returned (some tableInfo, none) →
      ∃ ddl, sqlparserParse sql = Except.ok (Statement.ddl ddl) ∧
        ddl.Action = str "create" ∧
        (∀ spec, ddl.TableSpec = some spec →
          tableInfo.Fields.length = spec.Columns.length ∧
          (spec.Columns ≠ [] → tableInfo.Fields ≠ []))) ∧
    (∀ ddl, sqlparserParse sql = Except.ok (Statement.ddl ddl) →
      ddl.Action = str "create" → ddl.TableSpec = none →
      Parse sqlparserParse upperCase lowerCase sql
        = Outcome.returned
            (some { Name := ddl.NewName, Comment := [], Fields := [], PrimaryKeys := [] },
              none)) := by
  refine ⟨fun tableInfo h => ?_, fun ddl hparse haction hspec =>
    Parse_of_no_spec sqlparserParse upperCase lowerCase sql ddl hparse haction hspec⟩
  obtain ⟨_, ddl, hparse, haction, hcase⟩ :=
    Parse_returned_some sqlparserParse upperCase lowerCase sql tableInfo none h
  refine ⟨ddl, hparse, haction, fun spec hspec => ?_⟩
  rcases hcase with ⟨hnone, _⟩ | ⟨spec', comment, hspec', _, hinfo⟩
  · rw [hnone] at hspec
    cases hspec
  · rw [hspec] at hspec'
    cases hspec'
    have hlen : tableInfo.Fields.length = spec.Columns.length := by
      rw [hinfo, parseTableSpec_eq]
      simp
    refine ⟨hlen, fun hne hnil => hne ?_⟩
    rw [hnil] at hlen
    exact List.length_eq_zero.1 hlen.symm

/-- C8, amended, at the table of orders and at the view definition: the first
gives three fields for three columns, the second a `TableInfo` without
fields. -/
theorem Parse_accepts_create_only_witness :
    (Parse (parserOf orderSQL orderStatement) id id orderSQL
        = Outcome.returned (some orderTableInfo, none) ∧
      ∃ ddl, parserOf orderSQL orderStatement orderSQL = Except.ok (Statement.ddl ddl) ∧
        ddl.Action = str "create" ∧
        (∀ spec, ddl.TableSpec = some spec →
          orderTableInfo.Fields.length = spec.Columns.length ∧
          (spec.Columns ≠ [] → orderTableInfo.Fields ≠ []))) ∧
    Parse (parserOf viewSQL viewStatement) id id viewSQL
      = Outcome.returned
          (some { Name := str "order_view", Comment := [], Fields := [], PrimaryKeys := [] },
            none) :=
  ⟨⟨by decide,
      (Parse_accepts_create_only (parserOf orderSQL orderStatement) id id orderSQL).1
        orderTableInfo (by decide)⟩,
    (Parse_accepts_create_only (parserOf viewSQL viewStatement) id id viewSQL).2
      { Action := str "create", NewName := str "order_view", TableSpec := none }
      (by simp [parserOf, viewStatement]) rfl rfl⟩

/-- C10: `parseColumn` sets `DefaultValue` to the text of the default when the
column has a default whose kind is a string, integer or floating literal, and
to the empty string in every other case: no default, or a default of another
kind. -/
theorem parseColumn_DefaultValue (lowerCase : Nat → Nat) (col : ColumnDefinition) :
    (∀ default, col.Type_.Default = some default →
      default.Type_ = ValType.StrVal ∨ default.Type_ = ValType.IntVal ∨
        default.Type_ = ValType.FloatVal →
      (parseColumn lowerCase col).DefaultValue = default.Val) ∧
    (col.Type_.Default = none → (parseColumn lowerCase col).DefaultValue = []) ∧
    (∀ default, col.Type_.Default = some default →
      default.Type_ ≠ ValType.StrVal → default.Type_ ≠ ValType.IntVal →
      default.Type_ ≠ ValType.FloatVal →
      (parseColumn lowerCase col).DefaultValue = []) := by
  refine ⟨fun default hdef hkind => ?_, fun hdef => ?_, fun default hdef h1 h2 h3 => ?_⟩
  · unfold parseColumn
    simp only [hdef]
    rcases hkind with hk | hk | hk <;> simp only [hk] <;> split <;> simp
  · unfold parseColumn
    simp only [hdef]
    split <;> split_ifs <;> rfl
  · unfold parseColumn
    simp only [hdef, h1, h2, h3, if_false]
    split <;> split_ifs <;> rfl

/-- C10, at three columns: an integer literal default is kept, a keyword
default and a missing default leave the value empty. -/
theorem parseColumn_DefaultValue_witness :
    (parseColumn id statusColumn).DefaultValue = str "0" ∧
    (parseColumn id (plainColumn (str "id") (str "int"))).DefaultValue = [] ∧
    (parseColumn id createdAtColumn).DefaultValue = [] :=
  ⟨(parseColumn_DefaultValue id statusColumn).1 { Type_ := ValType.IntVal, Val := str "0" }
      rfl (Or.inr (Or.inl rfl)),
    (parseColumn_DefaultValue id (plainColumn (str "id") (str "int"))).2.1 rfl,
    (parseColumn_DefaultValue id createdAtColumn).2.2
      { Type_ := ValType.ValArg, Val := str "current_timestamp" } rfl
      (by decide) (by decide) (by decide)⟩

/-- C9: for an all-ASCII options text: if it contains the keyword `COMMENT`
in some letter case and the text from the first such occurrence on contains
two single quotes or more, `extractTableComment` returns exactly the text
between the first single quote after the keyword and the last single quote of
the whole text; in every other case (no keyword, or fewer than two quotes from
the keyword on) it returns the empty string.  So `comment 'orders' engine 'x'`
gives `orders' engine 'x`. -/
theorem extractTableComment_ascii (upperCase : Nat → Nat) (options : GoString)
    (hascii : ∀ b ∈ options, b < 0x80) :
    ((∀ before keyword after, options = before ++ keyword ++ after →
        keyword.map strings.upperByte ≠ str "COMMENT") →
      extractTableComment upperCase options = Outcome.returned []) ∧
    (∀ before keyword after, options = before ++ keyword ++ after →
      keyword.map strings.upperByte = str "COMMENT" →
      (∀ before' keyword' after', options = before' ++ keyword' ++ after' →
        keyword'.map strings.upperByte = str "COMMENT" →
        before.length ≤ before'.length) →
      ((keyword ++ after).count quote < 2 →
        extractTableComment upperCase options = Outcome.returned []) ∧
      (2 ≤ (keyword ++ after).count quote →
        ∃ a mid z, after = a ++ quote :: (mid ++ quote :: z) ∧ quote ∉ a ∧ quote ∉ z ∧
          extractTableComment upperCase options = Outcome.returned mid)) ∧
    extractTableComment upperCase (str "comment 'orders' engine 'x'")
      = Outcome.returned (str "orders' engine 'x") := by
  refine ⟨extractTableComment_no_keyword upperCase options hascii, ?_, by rfl⟩
  intro before keyword after hsplit hkey hfirst
  subst hsplit
  have hpart := extractTableComment_from_keyword upperCase before keyword after hascii hkey
    hfirst
  have hkeyword : quote ∉ keyword := by
    intro hmem
    have hup : strings.upperByte quote ∈ keyword.map strings.upperByte :=
      List.mem_map_of_mem _ hmem
    rw [hkey] at hup
    revert hup
    decide
  have hcount : (keyword ++ after).count quote = after.count quote := by
    rw [List.count_append, List.count_eq_zero_of_not_mem hkeyword, Nat.zero_add]
  constructor
  · intro hlt
    rw [hpart]
    rcases occurrences_lt_two quote (keyword ++ after) hlt with hnone | ⟨a, z, hs, ha, hz⟩
    · exact quotedText_absent _ hnone
    · rw [hs]
      exact quotedText_single a z ha hz
  · intro hge
    rw [hcount] at hge
    obtain ⟨a, mid, z, hs, ha, hz⟩ := occurrences_ge_two quote after hge
    refine ⟨a, mid, z, hs, ha, hz, ?_⟩
    rw [hpart, hs, ← List.append_assoc]
    apply quotedText_between _ mid z _ hz
    intro hmem
    rcases List.mem_append.1 hmem with h | h
    · exact hkeyword h
    · exact ha h

/-- C9, at the options `comment 'orders' engine 'x'`: an all-ASCII text with
the keyword at its start and four quotes behind it, for which the result is
`orders' engine 'x`, the text between the first and the last quote. -/
theorem extractTableComment_ascii_witness :
    (∀ b ∈ str "comment 'orders' engine 'x'", b < 0x80) ∧
    extractTableComment id (str "comment 'orders' engine 'x'")
      = Outcome.returned (str "orders' engine 'x") ∧
    ∃ a mid z, str " 'orders' engine 'x'" = a ++ quote :: (mid ++ quote :: z) ∧
      quote ∉ a ∧ quote ∉ z ∧
      extractTableComment id (str "comment 'orders' engine 'x'") = Outcome.returned mid :=
  ⟨by decide,
    (extractTableComment_ascii id (str "comment 'orders' engine 'x'") (by decide)).2.2,
    ((extractTableComment_ascii id (str "comment 'orders' engine 'x'") (by decide)).2.1
      [] (str "comment") (str " 'orders' engine 'x'") (by decide) (by decide)
      (fun _ _ _ _ _ => Nat.zero_le _)).2 (by decide)⟩

end parser

/-! ## The generator: facts used below -/

namespace parser

open sqlparser

theorem parseColumn_IsNull (lowerCase : Nat → Nat) (col : ColumnDefinition) :
    (parseColumn lowerCase col).IsNull = !col.Type_.NotNull := by
  rcases col with ⟨name, ⟨type, notNull, autoincrement, default, comment, keyOpt⟩⟩
  cases notNull <;> cases autoincrement <;> cases default <;> cases comment <;>
    simp only [parseColumn] <;> split_ifs <;> first | rfl | contradiction

theorem parseColumn_IsAutoInc (lowerCase : Nat → Nat) (col : ColumnDefinition) :
    (parseColumn lowerCase col).IsAutoInc = col.Type_.Autoincrement := by
  rcases col with ⟨name, ⟨type, notNull, autoincrement, default, comment, keyOpt⟩⟩
  cases notNull <;> cases autoincrement <;> cases default <;> cases comment <;>
    simp only [parseColumn] <;> split_ifs <;> first | rfl | contradiction

/-- The comment extraction on an empty options text. -/
theorem extractTableComment_nil (upperCase : Nat → Nat) :
    extractTableComment upperCase [] = Outcome.returned [] := by
  rfl

end parser

namespace generator

open parser

/-- The tag of a field is the join of its fragment list. -/
theorem generateGORMTags_eq_join (field : FieldInfo) :
    generateGORMTags field
      = str "gorm:\"" ++ strings.Join (gormTagList field) (str ";") ++ str "\"" := by
  rfl

/-- What `generateStructName` computes, the loop written as a filter. -/
theorem generateStructName_eq (Title Singular : GoString → GoString) (name : GoString) :
    generateStructName Title Singular name
      = if ((((strings.Split name '_'.toNat).drop 1).filter
              (fun segment => decide (segment ≠ []))).map Title).length = 0 then
          Outcome.returned (Title name)
        else
          Outcome.returned
            (Singular
                ((((strings.Split name '_'.toNat).drop 1).filter
                    (fun segment => decide (segment ≠ []))).map Title).flatten
              ++ str "Model") := by
  have hlen : (1 : Int) ≤ ((strings.Split name '_'.toNat).length : Int) := by
    have := List.length_pos.2 (strings.Split_ne_nil name '_'.toNat)
    omega
  unfold generateStructName
  simp only [sliceLow, hlen, foldl_nameParts, List.nil_append, strings.Join_nil_sep]
  simp

/-- The function `generateStructName` never panics. -/
theorem generateStructName_returns (Title Singular : GoString → GoString) (name : GoString) :
    ∃ structName, generateStructName Title Singular name = Outcome.returned structName := by
  rw [generateStructName_eq]
  split_ifs
  · exact ⟨_, rfl⟩
  · exact ⟨_, rfl⟩

/-- The function `mapMySQLTypeToGoType` never panics. -/
theorem mapMySQLTypeToGoType_returns (mysqlType : GoString) :
    ∃ goType, mapMySQLTypeToGoType mysqlType = Outcome.returned goType := by
  have hbase : elemAt (strings.Split mysqlType '('.toNat) 0
      = Outcome.returned (mysqlType.takeWhile (fun c => decide (c ≠ '('.toNat))) := by
    have h := strings.Split_head mysqlType '('.toNat
    cases hs : strings.Split mysqlType '('.toNat with
    | nil => exact absurd hs (strings.Split_ne_nil mysqlType _)
    | cons piece rest =>
      rw [hs] at h
      simp only [List.head?_cons, Option.some.injEq] at h
      simp [elemAt, h]
  unfold mapMySQLTypeToGoType
  rw [hbase]
  dsimp only
  split_ifs <;> exact ⟨_, rfl⟩

/-- The declaration that `generateField` returns, given the Go type. -/
theorem generateField_eq (Title : GoString → GoString) (field : FieldInfo) (goType : GoString)
    (h : mapMySQLTypeToGoType field.Type_ = Outcome.returned goType) :
    generateField Title field
      = Outcome.returned
          (str "\t" ++ generateGoFieldName Title field.Name ++ str "\t" ++ goType
            ++ str " \x60" ++ (str "json:\"" ++ field.Name ++ str "\"") ++ str " "
            ++ generateGORMTags field ++ str "\x60"
            ++ (if field.Comment = [] then [] else str " // " ++ field.Comment), none) := by
  unfold generateField
  simp only [h]
  by_cases hc : field.Comment = []
  · simp [hc]
  · simp [hc]

/-- The function `generateField` returns a declaration and no error. -/
theorem generateField_returns (Title : GoString → GoString) (field : FieldInfo) :
    ∃ line, generateField Title field = Outcome.returned (line, none) := by
  obtain ⟨goType, h⟩ := mapMySQLTypeToGoType_returns field.Type_
  exact ⟨_, generateField_eq Title field goType h⟩

/-- Every list of fields has its list of declarations. -/
theorem exists_fieldLines (Title : GoString → GoString) (fields : List FieldInfo) :
    ∃ lines, List.Forall₂
      (fun field line => generateField Title field = Outcome.returned (line, none))
      fields lines := by
  induction fields with
  | nil => exact ⟨[], List.Forall₂.nil⟩
  | cons field rest ih =>
    obtain ⟨lines, hlines⟩ := ih
    obtain ⟨line, hline⟩ := generateField_returns Title field
    exact ⟨line :: lines, List.Forall₂.cons hline hlines⟩

/-- The loop of `generateFields` joins the lines collected so far and the
declarations of the fields still to come. -/
theorem generateFieldsLoop_eq (Title : GoString → GoString) (fields : List FieldInfo)
    (lines fieldLines : List GoString)
    (h : List.Forall₂
      (fun field line => generateField Title field = Outcome.returned (line, none))
      fields lines) :
    generateFieldsLoop Title fields fieldLines
      = Outcome.returned (strings.Join (fieldLines ++ lines) (str "\n\t"), none) := by
  induction h generalizing fieldLines with
  | nil => simp [generateFieldsLoop]
  | cons hline _ ih =>
    unfold generateFieldsLoop
    simp only [hline]
    rw [ih]
    simp

/-- The function `generateFields` joins the declarations of the fields. -/
theorem generateFields_eq (Title : GoString → GoString) (fields : List FieldInfo)
    (lines : List GoString)
    (h : List.Forall₂
      (fun field line => generateField Title field = Outcome.returned (line, none))
      fields lines) :
    generateFields Title fields
      = Outcome.returned (strings.Join lines (str "\n\t"), none) := by
  unfold generateFields
  rw [generateFieldsLoop_eq Title fields lines [] h, List.nil_append]

/-- The text that `Generate` assembles, given the struct name and the joined
field declarations. -/
theorem assembleCode_eq (Title Singular : GoString → GoString) (g : GORMGenerator)
    (tableInfo : TableInfo) (structName fields : GoString)
    (hname : generateStructName Title Singular tableInfo.Name = Outcome.returned structName)
    (hfields : generateFields Title tableInfo.Fields = Outcome.returned (fields, none)) :
    assembleCode Title Singular g tableInfo
      = Outcome.returned
          (Except.ok
            (str "package " ++ g.config.PackageName ++ str "\n\nvar " ++ (structName ++ str "Ins")
              ++ str " = new(" ++ structName ++ str ")\n\n// " ++ structName ++ str " "
              ++ tableInfo.Comment ++ str "\ntype " ++ structName ++ str " struct \x7b\n"
              ++ fields ++ str "\n\x7d\n\n"
              ++ (str "// TableName 表名称\nfunc (own *" ++ structName
                ++ str ") TableName() string \x7b\n\treturn \"" ++ tableInfo.Name
                ++ str "\"\n\x7d"))) := by
  unfold assembleCode generateTableNameMethod
  simp only [hname, hfields, generateInstanceName]

/-- The function `assembleCode` always gives a text. -/
theorem assembleCode_returns (Title Singular : GoString → GoString) (g : GORMGenerator)
    (tableInfo : TableInfo) :
    ∃ code, assembleCode Title Singular g tableInfo = Outcome.returned (Except.ok code) := by
  obtain ⟨structName, hname⟩ := generateStructName_returns Title Singular tableInfo.Name
  obtain ⟨lines, hlines⟩ := exists_fieldLines Title tableInfo.Fields
  exact ⟨_, assembleCode_eq Title Singular g tableInfo structName _ hname
    (generateFields_eq Title tableInfo.Fields lines hlines)⟩

/-- What `Generate` returns, given the assembled text. -/
theorem Generate_eq (formatSource : GoString → Except GoString GoString)
    (Title Singular : GoString → GoString) (g : GORMGenerator) (tableInfo : TableInfo)
    (code : GoString)
    (h : assembleCode Title Singular g tableInfo = Outcome.returned (Except.ok code)) :
    Generate formatSource Title Singular g tableInfo
      = match formatSource code with
        | Except.ok formatted => Outcome.returned (formatted, none)
        | Except.error err => Outcome.returned ([], some (str "代码格式化失败: " ++ err)) := by
  unfold Generate formatGoCode
  simp only [h]
  cases formatSource code <;> rfl

end generator

namespace parser

open sqlparser

/-- An error returned by `Parse` comes with a nil `TableInfo`. -/
theorem Parse_error_nil (sqlparserParse : GoString → Except GoString Statement)
    (upperCase lowerCase : Nat → Nat) (sql : GoString) (tableInfo : Option TableInfo)
    (err : GoString)
    (h : Parse sqlparserParse upperCase lowerCase sql
      = Outcome.returned (tableInfo, some err)) :
    tableInfo = none := by
  unfold Parse at h
  cases hp : sqlparserParse sql with
  | error e =>
    simp only [hp, Outcome.returned.injEq, Prod.mk.injEq] at h
    exact h.1.symm
  | ok stmt =>
    cases stmt with
    | other =>
      simp only [hp, Outcome.returned.injEq, Prod.mk.injEq] at h
      exact h.1.symm
    | ddl d =>
      simp only [hp] at h
      by_cases ha : d.Action = str "create"
      · simp only [ha, ne_eq, not_true_eq_false, if_false] at h
        cases hs : d.TableSpec with
        | none => simp [hs] at h
        | some spec =>
          simp only [hs] at h
          cases hc : extractTableComment upperCase spec.Options with
          | panicked => simp [hc] at h
          | returned comment => simp [hc] at h
      · simp only [ha, ne_eq, not_false_eq_true, if_true, Outcome.returned.injEq,
          Prod.mk.injEq] at h
        exact h.1.symm

end parser

namespace generator

open parser examples

/-- The text assembled for the table of orders. -/
theorem assembleCode_orders (g : GORMGenerator) :
    assembleCode titleWord dropFinalS g orderTableInfo
      = Outcome.returned (Except.ok (orderCode g.config.PackageName)) := by
  have hname : generateStructName titleWord dropFinalS orderTableInfo.Name
      = Outcome.returned (str "OrderModel") := by decide
  have hfields : generateFields titleWord orderTableInfo.Fields
      = Outcome.returned
          (str ("\tId\tint64 \x60json:\"id\" " ++
            "gorm:\"column:id;primaryKey;autoIncrement;not null\"\x60\n\t" ++
            "\tOrderNo\tstring \x60json:\"order_no\" " ++
            "gorm:\"column:order_no;not null\"\x60\n\t" ++
            "\tCreatedAt\tstring \x60json:\"created_at\" " ++
            "gorm:\"column:created_at\"\x60"), none) := by decide
  rw [assembleCode_eq titleWord dropFinalS g orderTableInfo _ _ hname hfields]
  unfold orderCode
  simp only [List.append_assoc]
  congr 4

end generator

/-! ## The claims about the extractor and the generator together -/

namespace generator

open parser sqlparser examples

/-- C11: for a column definition without a not-null constraint `parseColumn`
gives `IsNull = true` and the fragment list that `generateGORMTags` joins for
the field does not include `not null`; for a column definition with a not-null
constraint `IsNull` is false and `not null` is the last fragment. -/
theorem parseColumn_not_null_fragment (lowerCase : Nat → Nat) (col : ColumnDefinition) :
    generateGORMTags (parseColumn lowerCase col)
      = str "gorm:\"" ++ strings.Join (gormTagList (parseColumn lowerCase col)) (str ";")
        ++ str "\"" ∧
    (col.Type_.NotNull = false →
      (parseColumn lowerCase col).IsNull = true ∧
      str "not null" ∉ gormTagList (parseColumn lowerCase col)) ∧
    (col.Type_.NotNull = true →
      (parseColumn lowerCase col).IsNull = false ∧
      (gormTagList (parseColumn lowerCase col)).getLast? = some (str "not null")) := by
  have hcolumn : ∀ name : GoString, str "column:" ++ name ≠ str "not null" := by
    intro name h
    have hhead := congrArg List.head? h
    have h1 : str "column:" = 'c'.toNat :: str "olumn:" := by decide
    have h2 : (str "not null").head? = some 'n'.toNat := by decide
    rw [h1, h2] at hhead
    simp only [List.cons_append, List.head?_cons, Option.some.injEq] at hhead
    revert hhead
    decide
  have hdefault : ∀ value : GoString, str "default:" ++ value ≠ str "not null" := by
    intro value h
    have hhead := congrArg List.head? h
    have h1 : str "default:" = 'd'.toNat :: str "efault:" := by decide
    have h2 : (str "not null").head? = some 'n'.toNat := by decide
    rw [h1, h2] at hhead
    simp only [List.cons_append, List.head?_cons, Option.some.injEq] at hhead
    revert hhead
    decide
  have h1 : str "primaryKey" ≠ str "not null" := by decide
  have h2 : str "autoIncrement" ≠ str "not null" := by decide
  have h3 : str "default:CURRENT_TIMESTAMP" ≠ str "not null" := by decide
  have h4 : str "default:null" ≠ str "not null" := by decide
  refine ⟨rfl, fun hnull => ?_, fun hnull => ?_⟩
  · have hIsNull : (parseColumn lowerCase col).IsNull = true := by
      rw [parseColumn_IsNull, hnull]
      rfl
    refine ⟨hIsNull, ?_⟩
    unfold gormTagList
    rw [hIsNull]
    cases (parseColumn lowerCase col).IsPrimary <;>
      cases (parseColumn lowerCase col).IsAutoInc <;>
      simp only [ne_eq, ite_not, Bool.not_true, Bool.not_false, if_true, if_false,
        Bool.false_eq_true, List.nil_append] <;>
      split_ifs <;>
      simp [Ne.symm (hcolumn _), Ne.symm (hdefault _), Ne.symm h1, Ne.symm h2, Ne.symm h3,
        Ne.symm h4]
  · have hIsNull : (parseColumn lowerCase col).IsNull = false := by
      rw [parseColumn_IsNull, hnull]
      rfl
    refine ⟨hIsNull, ?_⟩
    unfold gormTagList
    rw [hIsNull]
    simp

/-- C11, at a column without a not-null constraint and at one with it. -/
theorem parseColumn_not_null_fragment_witness :
    ((parseColumn id createdAtColumn).IsNull = true ∧
      str "not null" ∉ gormTagList (parseColumn id createdAtColumn)) ∧
    ((parseColumn id statusColumn).IsNull = false ∧
      (gormTagList (parseColumn id statusColumn)).getLast? = some (str "not null")) :=
  ⟨(parseColumn_not_null_fragment id createdAtColumn).2.1 rfl,
    (parseColumn_not_null_fragment id statusColumn).2.2 rfl⟩

end generator

namespace generator

open parser sqlparser examples

/-- C12, where the code departs from it: for `inlineKeySQL`, whose column `id`
carries the key option primary and the auto-increment flag and which has no
table-level index, the field that `Parse` produces has `IsAutoInc` true but
`IsPrimary` false, and its tag has the fragment `autoIncrement` only. -/
theorem Parse_inline_key_not_primary
    (sqlparserParse : GoString → Except GoString Statement)
    (upperCase lowerCase : Nat → Nat)
    (hparse : sqlparserParse inlineKeySQL = Except.ok inlineKeyStatement) :
    Parse sqlparserParse upperCase lowerCase inlineKeySQL
      = Outcome.returned
          (some
            { Name := str "ny_order", Comment := [], Fields := [inlineKeyField],
              PrimaryKeys := [] },
            none) ∧
    inlineKeyField.IsPrimary = false ∧
    inlineKeyField.IsAutoInc = true ∧
    gormTagList inlineKeyField = [str "column:id", str "autoIncrement"] ∧
    generateGORMTags inlineKeyField = str "gorm:\"column:id;autoIncrement\"" := by
  refine ⟨?_, rfl, rfl, by decide, by decide⟩
  rw [Parse_of_spec sqlparserParse upperCase lowerCase inlineKeySQL _ _ [] hparse rfl rfl
    (extractTableComment_nil upperCase)]
  rfl

/-- C12, the departure, with a parser that knows `inlineKeySQL`. -/
theorem Parse_inline_key_not_primary_witness :
    parserOf inlineKeySQL inlineKeyStatement inlineKeySQL = Except.ok inlineKeyStatement ∧
    Parse (parserOf inlineKeySQL inlineKeyStatement) id id inlineKeySQL
      = Outcome.returned
          (some
            { Name := str "ny_order", Comment := [], Fields := [inlineKeyField],
              PrimaryKeys := [] },
            none) :=
  ⟨by simp [parserOf],
    (Parse_inline_key_not_primary (parserOf inlineKeySQL inlineKeyStatement) id id
      (by simp [parserOf])).1⟩

/-- C13, where the code departs from it: for the column `createdAtColumn`,
whose default is the keyword `current_timestamp` delivered with the kind
`ValArg`, `parseColumn` leaves `DefaultValue` empty and the tag has no default
fragment at all. -/
theorem parseColumn_keyword_default_no_fragment (lowerCase : Nat → Nat) :
    createdAtColumn.Type_.Default
      = some { Type_ := ValType.ValArg, Val := str "current_timestamp" } ∧
    (parseColumn lowerCase createdAtColumn).DefaultValue = [] ∧
    gormTagList (parseColumn lowerCase createdAtColumn) = [str "column:created_at"] ∧
    str "default:CURRENT_TIMESTAMP" ∉ gormTagList (parseColumn lowerCase createdAtColumn) ∧
    generateGORMTags (parseColumn lowerCase createdAtColumn)
      = str "gorm:\"column:created_at\"" := by
  have hfield : parseColumn lowerCase createdAtColumn
      = { Name := str "created_at", Type_ := str "datetime", IsNull := true,
          DefaultValue := [], Comment := [], IsPrimary := false, IsAutoInc := false } := by
    rfl
  rw [hfield]
  refine ⟨rfl, rfl, by decide, by decide, by decide⟩

/-- C14: the text that `Generate` assembles and hands to the formatter is, in
this order: the line `package P`; `var SIns = new(S)`; the doc comment
`// S C`; `type S struct {`, the field declarations in the order of the fields
and `}`; and, behind its own doc comment, the method
`func (own *S) TableName() string` whose body returns the table name `T`
between double quotes; `S` is `generateStructName(T)` in all places and the
instance name is `S` followed by `Ins`. -/
theorem assembleCode_text (Title Singular : GoString → GoString) (g : GORMGenerator)
    (tableInfo : TableInfo) :
    ∃ structName lines,
      generateStructName Title Singular tableInfo.Name = Outcome.returned structName ∧
      generateInstanceName structName = structName ++ str "Ins" ∧
      List.Forall₂
        (fun field line => generateField Title field = Outcome.returned (line, none))
        tableInfo.Fields lines ∧
      assembleCode Title Singular g tableInfo
        = Outcome.returned
            (Except.ok
              (str "package " ++ g.config.PackageName ++ str "\n\n"
                ++ str "var " ++ structName ++ str "Ins = new(" ++ structName ++ str ")\n\n"
                ++ str "// " ++ structName ++ str " " ++ tableInfo.Comment ++ str "\n"
                ++ str "type " ++ structName ++ str " struct \x7b\n"
                ++ strings.Join lines (str "\n\t") ++ str "\n"
                ++ str "\x7d\n\n"
                ++ str "// TableName 表名称\n"
                ++ str "func (own *" ++ structName ++ str ") TableName() string \x7b\n"
                ++ str "\treturn \"" ++ tableInfo.Name ++ str "\"\n"
                ++ str "\x7d")) ∧
      ∀ formatSource : GoString → Except GoString GoString,
        Generate formatSource Title Singular g tableInfo
          = match formatSource
              (str "package " ++ g.config.PackageName ++ str "\n\n"
                ++ str "var " ++ structName ++ str "Ins = new(" ++ structName ++ str ")\n\n"
                ++ str "// " ++ structName ++ str " " ++ tableInfo.Comment ++ str "\n"
                ++ str "type " ++ structName ++ str " struct \x7b\n"
                ++ strings.Join lines (str "\n\t") ++ str "\n"
                ++ str "\x7d\n\n"
                ++ str "// TableName 表名称\n"
                ++ str "func (own *" ++ structName ++ str ") TableName() string \x7b\n"
                ++ str "\treturn \"" ++ tableInfo.Name ++ str "\"\n"
                ++ str "\x7d") with
            | Except.ok formatted => Outcome.returned (formatted, none)
            | Except.error err =>
              Outcome.returned ([], some (str "代码格式化失败: " ++ err)) := by
  obtain ⟨structName, hname⟩ := generateStructName_returns Title Singular tableInfo.Name
  obtain ⟨lines, hlines⟩ := exists_fieldLines Title tableInfo.Fields
  have hcode := assembleCode_eq Title Singular g tableInfo structName _ hname
    (generateFields_eq Title tableInfo.Fields lines hlines)
  have hsame : (str "package " ++ g.config.PackageName ++ str "\n\nvar " ++ (structName ++ str "Ins")
      ++ str " = new(" ++ structName ++ str ")\n\n// " ++ structName ++ str " "
      ++ tableInfo.Comment ++ str "\ntype " ++ structName ++ str " struct \x7b\n"
      ++ strings.Join lines (str "\n\t") ++ str "\n\x7d\n\n"
      ++ (str "// TableName 表名称\nfunc (own *" ++ structName
        ++ str ") TableName() string \x7b\n\treturn \"" ++ tableInfo.Name
        ++ str "\"\n\x7d"))
      = (str "package " ++ g.config.PackageName ++ str "\n\n"
        ++ str "var " ++ structName ++ str "Ins = new(" ++ structName ++ str ")\n\n"
        ++ str "// " ++ structName ++ str " " ++ tableInfo.Comment ++ str "\n"
        ++ str "type " ++ structName ++ str " struct \x7b\n"
        ++ strings.Join lines (str "\n\t") ++ str "\n"
        ++ str "\x7d\n\n"
        ++ str "// TableName 表名称\n"
        ++ str "func (own *" ++ structName ++ str ") TableName() string \x7b\n"
        ++ str "\treturn \"" ++ tableInfo.Name ++ str "\"\n"
        ++ str "\x7d") := by
    have e1 : str "\n\nvar " = str "\n\n" ++ str "var " := by decide
    have e2' : str "Ins = new(" = str "Ins" ++ str " = new(" := by decide
    have e3 : str ")\n\n// " = str ")\n\n" ++ str "// " := by decide
    have e4 : str "\ntype " = str "\n" ++ str "type " := by decide
    have e5 : str "\n\x7d\n\n" = str "\n" ++ str "\x7d\n\n" := by decide
    have e6 : str "// TableName 表名称\nfunc (own *"
        = str "// TableName 表名称\n" ++ str "func (own *" := by decide
    have e7 : str ") TableName() string \x7b\n\treturn \""
        = str ") TableName() string \x7b\n" ++ str "\treturn \"" := by decide
    have e8 : str "\"\n\x7d" = str "\"\n" ++ str "\x7d" := by decide
    rw [e1, e2', e3, e4, e5, e6, e7, e8]
    simp only [List.append_assoc]
  rw [hsame] at hcode
  exact ⟨structName, lines, hname, rfl, hlines, hcode,
    fun formatSource => Generate_eq formatSource Title Singular g tableInfo _ hcode⟩

/-- C15: `generateField` never fails and returns one declaration: a tab,
`generateGoFieldName(Name)`, a tab, `mapMySQLTypeToGoType(Type)`, a space and,
between back quotes, `json:"Name"`, a space and `generateGORMTags(field)`,
followed by ` // ` and the comment if and only if the comment is non-empty.
`generateFields` returns one such declaration per field, in the order of the
fields, joined by a newline and a tab, and no error. -/
theorem generateField_declaration (Title : GoString → GoString) (field : FieldInfo)
    (fields : List FieldInfo) :
    (∃ goType, mapMySQLTypeToGoType field.Type_ = Outcome.returned goType ∧
      generateField Title field
        = Outcome.returned
            (str "\t" ++ generateGoFieldName Title field.Name ++ str "\t" ++ goType
              ++ str " \x60" ++ (str "json:\"" ++ field.Name ++ str "\"") ++ str " "
              ++ generateGORMTags field ++ str "\x60"
              ++ (if field.Comment = [] then [] else str " // " ++ field.Comment), none)) ∧
    (∃ lines,
      List.Forall₂
        (fun field line => generateField Title field = Outcome.returned (line, none))
        fields lines ∧
      lines.length = fields.length ∧
      generateFields Title fields
        = Outcome.returned (strings.Join lines (str "\n\t"), none)) := by
  constructor
  · obtain ⟨goType, h⟩ := mapMySQLTypeToGoType_returns field.Type_
    exact ⟨goType, h, generateField_eq Title field goType h⟩
  · obtain ⟨lines, hlines⟩ := exists_fieldLines Title fields
    exact ⟨lines, hlines, hlines.length_eq.symm, generateFields_eq Title fields lines hlines⟩

end generator

namespace generator

open parser sqlparser examples

/-- C16 as stated fails: with the stand-ins `titleWord` and `dropFinalS` the
table name `orders` gives the struct name `Orders`, which does not end in
`Model`. -/
theorem generateStructName_orders_no_suffix :
    generateStructName titleWord dropFinalS (str "orders") = Outcome.returned (str "Orders") ∧
    ¬ (str "Model" <:+ str "Orders") := by
  decide

/-- C16, amended: for a table name with a non-empty segment behind its first
underscore the struct name is a singular-form name with the suffix `Model`
appended, so it ends in `Model`; for every other name, so for every name
without an underscore such as `orders`, it is `Title tableName` with no suffix
appended. -/
theorem generateStructName_Model_suffix (Title Singular : GoString → GoString)
    (tableName : GoString) :
    ((∃ segment ∈ (strings.Split tableName '_'.toNat).drop 1, segment ≠ []) →
      ∃ base structName,
        generateStructName Title Singular tableName = Outcome.returned structName ∧
        structName = Singular base ++ str "Model" ∧ str "Model" <:+ structName) ∧
    ((∀ segment ∈ (strings.Split tableName '_'.toNat).drop 1, segment = []) →
      generateStructName Title Singular tableName = Outcome.returned (Title tableName)) ∧
    ('_'.toNat ∉ tableName →
      generateStructName Title Singular tableName = Outcome.returned (Title tableName)) ∧
    generateStructName Title Singular (str "orders")
      = Outcome.returned (Title (str "orders")) := by
  have hempty : ∀ name : GoString,
      (∀ segment ∈ (strings.Split name '_'.toNat).drop 1, segment = []) →
      generateStructName Title Singular name = Outcome.returned (Title name) := by
    intro name h
    rw [generateStructName_eq]
    have hnil : ((strings.Split name '_'.toNat).drop 1).filter
        (fun segment => decide (segment ≠ [])) = [] := by
      rw [List.filter_eq_nil_iff]
      intro a ha
      simp [h a ha]
    rw [hnil]
    rfl
  have hnone : ∀ name : GoString, '_'.toNat ∉ name →
      generateStructName Title Singular name = Outcome.returned (Title name) := by
    intro name h
    apply hempty
    rw [strings.Split_of_not_mem name _ h]
    simp
  refine ⟨?_, hempty tableName, hnone tableName, hnone _ (by decide)⟩
  rintro ⟨segment, hmem, hne⟩
  have hfilter : segment ∈ ((strings.Split tableName '_'.toNat).drop 1).filter
      (fun segment => decide (segment ≠ [])) := by
    rw [List.mem_filter]
    exact ⟨hmem, by simp [hne]⟩
  have hlen : ((((strings.Split tableName '_'.toNat).drop 1).filter
      (fun segment => decide (segment ≠ []))).map Title).length ≠ 0 := by
    rw [List.length_map]
    exact Nat.ne_of_gt (List.length_pos_of_mem hfilter)
  refine ⟨((((strings.Split tableName '_'.toNat).drop 1).filter
    (fun segment => decide (segment ≠ []))).map Title).flatten, _, ?_, rfl,
    List.suffix_append _ _⟩
  rw [generateStructName_eq, if_neg hlen]

/-- C16, amended, with the stand-ins `titleWord` and `dropFinalS`: `ny_order`
gives a name that ends in `Model`, `orders` gives `Orders`. -/
theorem generateStructName_Model_suffix_witness :
    (∃ base structName,
      generateStructName titleWord dropFinalS (str "ny_order") = Outcome.returned structName ∧
      structName = dropFinalS base ++ str "Model" ∧ str "Model" <:+ structName) ∧
    generateStructName titleWord dropFinalS (str "orders") = Outcome.returned (str "Orders") :=
  ⟨(generateStructName_Model_suffix titleWord dropFinalS (str "ny_order")).1
      ⟨str "order", by decide, by decide⟩,
    ((generateStructName_Model_suffix titleWord dropFinalS (str "orders")).2.2.1
      (by decide)).trans (by decide)⟩

end generator

namespace parser

open sqlparser examples

/-- C17 as stated fails: for `strayKeySQL`, whose primary key names the column
`uid` that no column definition declares, `Parse` succeeds and `PrimaryKeys`
holds `uid`, the name of no field. -/
theorem Parse_stray_primary_key :
    Parse (parserOf strayKeySQL strayKeyStatement) id id strayKeySQL
      = Outcome.returned (some strayKeyTableInfo, none) ∧
    str "uid" ∈ strayKeyTableInfo.PrimaryKeys ∧
    ∀ field ∈ strayKeyTableInfo.Fields, field.Name ≠ str "uid" := by
  decide

/-- C17, amended: in every `TableInfo` returned by a successful `Parse`, every
name in `PrimaryKeys` is a column named by a primary index of the statement,
and it is the name of a field in `Fields` if and only if a column definition
of the statement has that name. -/
theorem Parse_PrimaryKeys_from_indexes
    (sqlparserParse : GoString → Except GoString Statement)
    (upperCase lowerCase : Nat → Nat) (sql : GoString) (tableInfo : TableInfo)
    (h : Parse sqlparserParse upperCase lowerCase sql
      = Outcome.returned (some tableInfo, none)) :
    ∀ pk ∈ tableInfo.PrimaryKeys,
      ∃ ddl spec, sqlparserParse sql = Except.ok (Statement.ddl ddl) ∧
        ddl.TableSpec = some spec ∧
        (∃ idx ∈ spec.Indexes, idx.Info.Primary = true ∧
          ∃ col ∈ idx.Columns, col.Column = pk) ∧
        ((∃ field ∈ tableInfo.Fields, field.Name = pk) ↔
          ∃ col ∈ spec.Columns, col.Name = pk) := by
  intro pk hpk
  obtain ⟨_, ddl, hparse, _, hcase⟩ :=
    Parse_returned_some sqlparserParse upperCase lowerCase sql tableInfo none h
  rcases hcase with ⟨_, hinfo⟩ | ⟨spec, comment, hspec, _, hinfo⟩
  · subst hinfo
    simp at hpk
  · rw [parseTableSpec_eq] at hinfo
    subst hinfo
    refine ⟨ddl, spec, hparse, hspec, ?_, ?_⟩
    · simp only [List.nil_append, List.mem_flatMap, List.mem_filter, List.mem_map] at hpk
      obtain ⟨idx, ⟨hidx, hprimary⟩, col, hcol, hname⟩ := hpk
      exact ⟨idx, hidx, hprimary, col, hcol, hname⟩
    · simp only [List.nil_append, List.mem_map, markPrimary_eq]
      constructor
      · rintro ⟨field, ⟨parsed, ⟨col, hcol, rfl⟩, rfl⟩, hname⟩
        exact ⟨col, hcol, by simpa [parseColumn_Name] using hname⟩
      · rintro ⟨col, hcol, hname⟩
        exact ⟨_, ⟨_, ⟨col, hcol, rfl⟩, rfl⟩, by simpa [parseColumn_Name] using hname⟩

/-- C17, amended, at the table of orders: `Parse` succeeds, and the key `id`
is named by the primary index and is the name of a field, as a column has that
name. -/
theorem Parse_PrimaryKeys_from_indexes_witness :
    Parse (parserOf orderSQL orderStatement) id id orderSQL
      = Outcome.returned (some orderTableInfo, none) ∧
    (∀ pk ∈ orderTableInfo.PrimaryKeys,
      ∃ ddl spec, parserOf orderSQL orderStatement orderSQL = Except.ok (Statement.ddl ddl) ∧
        ddl.TableSpec = some spec ∧
        (∃ idx ∈ spec.Indexes, idx.Info.Primary = true ∧
          ∃ col ∈ idx.Columns, col.Column = pk) ∧
        ((∃ field ∈ orderTableInfo.Fields, field.Name = pk) ↔
          ∃ col ∈ spec.Columns, col.Name = pk)) :=
  ⟨by decide,
    Parse_PrimaryKeys_from_indexes (parserOf orderSQL orderStatement) id id orderSQL
      orderTableInfo (by decide)⟩

end parser

namespace generator

open parser sqlparser examples

/-- C18: no partial result accompanies an error.  When `Parse` returns an
error its `TableInfo` is nil; when `Generate` returns an error its text is
empty; `Generate` always returns, and it returns an error exactly when the
formatter rejects the assembled text, as `generateFields` returns no error. -/
theorem no_partial_results (sqlparserParse : GoString → Except GoString Statement)
    (upperCase lowerCase : Nat → Nat) (sql : GoString)
    (formatSource : GoString → Except GoString GoString)
    (Title Singular : GoString → GoString) (g : GORMGenerator) (tableInfo : TableInfo) :
    (∀ parsed err, Parse sqlparserParse upperCase lowerCase sql
        = Outcome.returned (parsed, some err) → parsed = none) ∧
    (∀ text err, Generate formatSource Title Singular g tableInfo
        = Outcome.returned (text, some err) → text = []) ∧
    (∃ results, Generate formatSource Title Singular g tableInfo
        = Outcome.returned results) ∧
    (∃ code, assembleCode Title Singular g tableInfo = Outcome.returned (Except.ok code) ∧
      ((∃ text err, Generate formatSource Title Singular g tableInfo
          = Outcome.returned (text, some err)) ↔
        ∃ err, formatSource code = Except.error err)) ∧
    (∃ fields, generateFields Title tableInfo.Fields = Outcome.returned (fields, none)) := by
  obtain ⟨code, hcode⟩ := assembleCode_returns Title Singular g tableInfo
  have hgen := Generate_eq formatSource Title Singular g tableInfo code hcode
  obtain ⟨lines, hlines⟩ := exists_fieldLines Title tableInfo.Fields
  refine ⟨fun parsed err h => Parse_error_nil sqlparserParse upperCase lowerCase sql parsed
    err h, ?_, ?_, ⟨code, hcode, ?_⟩, ⟨_, generateFields_eq Title tableInfo.Fields lines hlines⟩⟩
  · intro text err h
    rw [hgen] at h
    cases hf : formatSource code with
    | error e =>
      simp only [hf, Outcome.returned.injEq, Prod.mk.injEq] at h
      exact h.1.symm
    | ok formatted => simp [hf] at h
  · rw [hgen]
    cases formatSource code <;> exact ⟨_, rfl⟩
  · rw [hgen]
    cases hf : formatSource code with
    | error e => simp
    | ok formatted => simp

/-- C18, at a text that the SQL parser rejects and at a package name that the
formatter rejects: both errors come without a result. -/
theorem no_partial_results_witness :
    Parse (parserOf orderSQL orderStatement) id id brokenSQL
      = Outcome.returned (none, some (str "SQL解析失败: syntax error")) ∧
    Generate (rejectingFormatter dashMessage) titleWord dropFinalS dashGenerator orderTableInfo
      = Outcome.returned ([], some (str "代码格式化失败: 1:11: expected ';', found '-'")) ∧
    (∀ text err,
      Generate (rejectingFormatter dashMessage) titleWord dropFinalS dashGenerator
          orderTableInfo
        = Outcome.returned (text, some err) → text = []) :=
  ⟨by decide, by decide,
    (no_partial_results (parserOf orderSQL orderStatement) id id brokenSQL
      (rejectingFormatter dashMessage) titleWord dropFinalS dashGenerator orderTableInfo).2.1⟩

/-- C19 as stated fails: for the table of orders and the package name
`my-models` the formatter rejects the assembled text, and the error of
`Generate` is the prefix and the message of the formatter; the assembled text
is no part of it. -/
theorem Generate_error_without_text :
    assembleCode titleWord dropFinalS dashGenerator orderTableInfo
      = Outcome.returned (Except.ok (orderCode (str "my-models"))) ∧
    rejectingFormatter dashMessage (orderCode (str "my-models")) = Except.error dashMessage ∧
    Generate (rejectingFormatter dashMessage) titleWord dropFinalS dashGenerator orderTableInfo
      = Outcome.returned ([], some (str "代码格式化失败: 1:11: expected ';', found '-'")) ∧
    ¬ (orderCode (str "my-models")
        <:+: str "代码格式化失败: 1:11: expected ';', found '-'") :=
  ⟨assembleCode_orders dashGenerator, rfl, by decide, by decide⟩

/-- C19, amended: whenever the formatter rejects the assembled text, `Generate`
returns the empty text and an error whose message is `代码格式化失败: `
followed by the message of the formatter; it adds nothing of the assembled
text to it. -/
theorem Generate_error_message (formatSource : GoString → Except GoString GoString)
    (Title Singular : GoString → GoString) (g : GORMGenerator) (tableInfo : TableInfo) :
    ∃ code, assembleCode Title Singular g tableInfo = Outcome.returned (Except.ok code) ∧
      ∀ err, formatSource code = Except.error err →
        Generate formatSource Title Singular g tableInfo
          = Outcome.returned ([], some (str "代码格式化失败: " ++ err)) := by
  obtain ⟨code, hcode⟩ := assembleCode_returns Title Singular g tableInfo
  refine ⟨code, hcode, fun err herr => ?_⟩
  rw [Generate_eq formatSource Title Singular g tableInfo code hcode, herr]

/-- C19, amended, at the table of orders and the package name `my-models`. -/
theorem Generate_error_message_witness :
    ∃ code,
      assembleCode titleWord dropFinalS dashGenerator orderTableInfo
        = Outcome.returned (Except.ok code) ∧
      rejectingFormatter dashMessage code = Except.error dashMessage ∧
      Generate (rejectingFormatter dashMessage) titleWord dropFinalS dashGenerator
          orderTableInfo
        = Outcome.returned ([], some (str "代码格式化失败: " ++ dashMessage)) := by
  obtain ⟨code, hcode, hgen⟩ :=
    Generate_error_message (rejectingFormatter dashMessage) titleWord dropFinalS dashGenerator
      orderTableInfo
  exact ⟨code, hcode, rfl, hgen dashMessage rfl⟩

/-- C20 as stated fails: `binary` and `varbinary`, with or without a length,
are mapped to `string`, not to `[]byte`. -/
theorem mapMySQLTypeToGoType_binary :
    mapMySQLTypeToGoType (str "binary(16)") = Outcome.returned (str "string") ∧
    mapMySQLTypeToGoType (str "varbinary(255)") = Outcome.returned (str "string") ∧
    mapMySQLTypeToGoType (str "binary") = Outcome.returned (str "string") ∧
    mapMySQLTypeToGoType (str "varbinary") = Outcome.returned (str "string") ∧
    mapMySQLTypeToGoType (str "binary(16)") ≠ Outcome.returned (str "[]byte") ∧
    mapMySQLTypeToGoType (str "varbinary(255)") ≠ Outcome.returned (str "[]byte") := by
  decide

/-- The Go type depends on the text before the first `(` only. -/
theorem mapMySQLTypeToGoType_base (mysqlType : GoString) :
    mapMySQLTypeToGoType mysqlType
      = mapMySQLTypeToGoType (mysqlType.takeWhile (fun c => decide (c ≠ '('.toNat))) := by
  have hbase : ∀ u : GoString,
      elemAt (strings.Split u '('.toNat) 0
        = Outcome.returned (u.takeWhile (fun c => decide (c ≠ '('.toNat))) := by
    intro u
    have h := strings.Split_head u '('.toNat
    cases hs : strings.Split u '('.toNat with
    | nil => exact absurd hs (strings.Split_ne_nil u _)
    | cons piece rest =>
      rw [hs] at h
      simp only [List.head?_cons, Option.some.injEq] at h
      simp [elemAt, h]
  unfold mapMySQLTypeToGoType
  rw [hbase, hbase, List.takeWhile_idem]

/-- A parenthesized suffix behind a base name without `(` does not change the
Go type. -/
theorem mapMySQLTypeToGoType_suffix (base suffix : GoString) (h : '('.toNat ∉ base) :
    mapMySQLTypeToGoType (base ++ str "(" ++ suffix) = mapMySQLTypeToGoType base := by
  have hparen : str "(" = ['('.toNat] := by decide
  have hall : ∀ a ∈ base, (fun c => decide (c ≠ '('.toNat)) a = true := by
    intro a ha
    have hne : a ≠ '('.toNat := fun e => h (e ▸ ha)
    exact decide_eq_true hne
  have htake : (base ++ str "(" ++ suffix).takeWhile (fun c => decide (c ≠ '('.toNat))
      = base := by
    rw [hparen, List.append_assoc, List.takeWhile_append_of_pos hall]
    simp
  rw [mapMySQLTypeToGoType_base (base ++ str "(" ++ suffix), htake]

/-- C20, amended: every native type of the blob family (`blob`, `tinyblob`,
`mediumblob`, `longblob`), with or without a parenthesized length suffix, is
mapped by `mapMySQLTypeToGoType` to `[]byte`; `binary` and `varbinary`, with or
without a length suffix such as `binary(16)` or `varbinary(255)`, are not
listed in the switch and are mapped to `string` by its default. -/
theorem mapMySQLTypeToGoType_blob_family (base suffix : GoString) :
    (base ∈ [str "blob", str "tinyblob", str "mediumblob", str "longblob"] →
      mapMySQLTypeToGoType base = Outcome.returned (str "[]byte") ∧
      mapMySQLTypeToGoType (base ++ str "(" ++ suffix) = Outcome.returned (str "[]byte")) ∧
    (base ∈ [str "binary", str "varbinary"] →
      mapMySQLTypeToGoType base = Outcome.returned (str "string") ∧
      mapMySQLTypeToGoType (base ++ str "(" ++ suffix) = Outcome.returned (str "string")) := by
  constructor
  · intro h
    simp only [List.mem_cons, List.mem_singleton, List.not_mem_nil, or_false] at h
    rcases h with h | h | h | h <;> subst h <;>
      exact ⟨by decide, (mapMySQLTypeToGoType_suffix _ suffix (by decide)).trans (by decide)⟩
  · intro h
    simp only [List.mem_cons, List.mem_singleton, List.not_mem_nil, or_false] at h
    rcases h with h | h <;> subst h <;>
      exact ⟨by decide, (mapMySQLTypeToGoType_suffix _ suffix (by decide)).trans (by decide)⟩

/-- C20, amended, at `longblob`, `blob(255)`, `binary(16)` and
`varbinary(255)`. -/
theorem mapMySQLTypeToGoType_blob_family_witness :
    mapMySQLTypeToGoType (str "longblob") = Outcome.returned (str "[]byte") ∧
    mapMySQLTypeToGoType (str "blob" ++ str "(" ++ str "255)")
      = Outcome.returned (str "[]byte") ∧
    mapMySQLTypeToGoType (str "binary" ++ str "(" ++ str "16)")
      = Outcome.returned (str "string") ∧
    mapMySQLTypeToGoType (str "varbinary" ++ str "(" ++ str "255)")
      = Outcome.returned (str "string") :=
  ⟨((mapMySQLTypeToGoType_blob_family (str "longblob") []).1 (by decide)).1,
    ((mapMySQLTypeToGoType_blob_family (str "blob") (str "255)")).1 (by decide)).2,
    ((mapMySQLTypeToGoType_blob_family (str "binary") (str "16)")).2 (by decide)).2,
    ((mapMySQLTypeToGoType_blob_family (str "varbinary") (str "255)")).2 (by decide)).2⟩


end generator

/-! ## The comment extraction: where it can panic -/

namespace parser

open sqlparser examples

/-- The slice expression of lines 139-145 never panics: `quotedText` always
returns. -/
theorem quotedText_returns (part : GoString) :
    ∃ text, quotedText part = Outcome.returned text := by
  by_cases hmem : quote ∈ part
  · obtain ⟨a, r, hfirst, ha⟩ := List.eq_append_cons_of_mem hmem
    obtain ⟨b, z, hlast, hz⟩ := exists_last_occurrence quote part hmem
    have hstart : strings.Index part [quote] = (a.length : Int) := by
      rw [hfirst]
      exact strings.Index_byte_first a r quote ha
    have hend : strings.LastIndex part [quote] = (b.length : Int) := by
      rw [hlast]
      exact strings.LastIndex_byte_last b z quote hz
    have hlen : b.length < part.length := by
      rw [hlast]
      simp
    unfold quotedText
    rw [hstart, hend]
    dsimp only
    by_cases hcontains : strings.Contains part [quote] = true
    · rw [if_pos hcontains]
      by_cases hcond : (a.length : Int) ≠ -1 ∧ (b.length : Int) ≠ -1 ∧
          (a.length : Int) < (b.length : Int)
      · rw [if_pos hcond]
        unfold sliceLowHigh
        have hbounds : (0 : Int) ≤ (a.length : Int) + 1 ∧
            (a.length : Int) + 1 ≤ (b.length : Int) ∧
            (b.length : Int) ≤ (part.length : Int) := by
          have := hcond.2.2
          refine ⟨by omega, by omega, by omega⟩
        rw [if_pos hbounds]
        exact ⟨_, rfl⟩
      · rw [if_neg hcond]
        exact ⟨_, rfl⟩
    · rw [if_neg hcontains]
      exact ⟨_, rfl⟩
  · exact ⟨[], quotedText_absent part hmem⟩

/-- The only panic of `extractTableComment` is that of `options[commentIndex:]`:
it panics exactly when the offset of the keyword in the upper-cased copy lies
behind the end of the original. -/
theorem extractTableComment_panicked_iff (upperCase : Nat → Nat) (options : GoString) :
    extractTableComment upperCase options = Outcome.panicked ↔
      (options.length : Int)
        < strings.Index (strings.ToUpper upperCase options) (str "COMMENT") := by
  unfold extractTableComment
  by_cases hcontains :
      strings.Contains (strings.ToUpper upperCase options) (str "COMMENT") = true
  · have hnonneg : (0 : Int)
        ≤ strings.Index (strings.ToUpper upperCase options) (str "COMMENT") := by
      simpa [strings.Contains] using hcontains
    have hne : strings.Index (strings.ToUpper upperCase options) (str "COMMENT") ≠ -1 := by
      omega
    rw [if_pos hcontains]
    dsimp only
    rw [if_pos hne]
    unfold sliceLow
    by_cases hle : strings.Index (strings.ToUpper upperCase options) (str "COMMENT")
        ≤ (options.length : Int)
    · rw [if_pos ⟨hnonneg, hle⟩]
      obtain ⟨text, htext⟩ := quotedText_returns
        (options.drop
          (strings.Index (strings.ToUpper upperCase options) (str "COMMENT")).toNat)
      simp only [htext]
      constructor
      · intro h
        cases h
      · intro h
        omega
    · have hnot : ¬ ((0 : Int)
          ≤ strings.Index (strings.ToUpper upperCase options) (str "COMMENT") ∧
          strings.Index (strings.ToUpper upperCase options) (str "COMMENT")
            ≤ (options.length : Int)) := fun h => hle h.2
      rw [if_neg hnot]
      constructor
      · intro _
        omega
      · intro _
        rfl
  · have hneg : strings.Index (strings.ToUpper upperCase options) (str "COMMENT") < 0 := by
      have : ¬ (0 : Int)
          ≤ strings.Index (strings.ToUpper upperCase options) (str "COMMENT") := by
        simpa [strings.Contains] using hcontains
      omega
    rw [if_neg hcontains]
    constructor
    · intro h
      cases h
    · intro h
      omega

/-- Upper-casing `wideningOptions` needs the case table at U+0250 only. -/
theorem ToUpper_widening (upperCase : Nat → Nat) (hcase : upperCase 0x250 = 0x2C6F) :
    strings.ToUpper upperCase wideningOptions = strings.ToUpper turnedA wideningOptions := by
  have hagree : ∀ r, (decide (r ≤ 0x7F) || decide (r = 0x250)) = true →
      unicode.ToUpper upperCase r = unicode.ToUpper turnedA r := by
    intro r hr
    simp only [Bool.or_eq_true, decide_eq_true_eq] at hr
    rcases hr with h | h
    · simp [unicode.ToUpper, h]
    · subst h
      simp [unicode.ToUpper, turnedA, hcase]
  unfold strings.ToUpper strings.Map
  rw [strings.mapRunes_congr (unicode.ToUpper upperCase) (unicode.ToUpper turnedA)
    (fun r => decide (r ≤ 0x7F) || decide (r = 0x250)) hagree _ _ (by decide)]

/-- C21, where the code departs from it: `wideningOptions` has 46 bytes, its
upper-cased copy has 58, as each of the twelve letters U+0250 grows from two
bytes to three; the keyword is found at offset 47 of the copy, which is no
slice position of the original, `options[47:]` panics and
`extractTableComment` returns no string. -/
theorem extractTableComment_not_total (upperCase : Nat → Nat)
    (hcase : upperCase 0x250 = 0x2C6F) :
    wideningOptions.length = 46 ∧
    (strings.ToUpper upperCase wideningOptions).length = 58 ∧
    strings.Index (strings.ToUpper upperCase wideningOptions) (str "COMMENT") = 47 ∧
    sliceLow wideningOptions 47 = Outcome.panicked ∧
    extractTableComment upperCase wideningOptions = Outcome.panicked ∧
    ∀ text, extractTableComment upperCase wideningOptions ≠ Outcome.returned text := by
  have hup := ToUpper_widening upperCase hcase
  have hindex : strings.Index (strings.ToUpper upperCase wideningOptions) (str "COMMENT")
      = 47 := by
    rw [hup]
    decide
  have hpanic : extractTableComment upperCase wideningOptions = Outcome.panicked := by
    rw [extractTableComment_panicked_iff, hindex]
    decide
  refine ⟨by decide, ?_, hindex, by decide, hpanic, fun text h => ?_⟩
  · rw [hup]
    decide
  · rw [hpanic] at h
    cases h

/-- C21, the departure, with the case table entry of U+0250. -/
theorem extractTableComment_not_total_witness :
    turnedA 0x250 = 0x2C6F ∧
    strings.Index (strings.ToUpper turnedA wideningOptions) (str "COMMENT") = 47 ∧
    wideningOptions.length = 46 ∧
    extractTableComment turnedA wideningOptions = Outcome.panicked :=
  ⟨by decide, (extractTableComment_not_total turnedA (by decide)).2.2.1,
    (extractTableComment_not_total turnedA (by decide)).1,
    (extractTableComment_not_total turnedA (by decide)).2.2.2.2.1⟩

end parser
